import Mathlib

/-!
Verification development for the AST core of facebook/libfbjs (src/node.cpp):
a tree of typed node variants with structural equality, deep clone, a
multi-mode renderer with optional source-line preservation, and a
constant-folding / dead-code-eliminating reduce pass.

Every definition below is a shallow embedding of the corresponding C++
function in src/node.cpp; comments cite the source entity.  Places where the
C++ has undefined behavior (null-pointer dereference, dereferencing an end
iterator) are totalized with an explicitly commented modelling choice.
-/

set_option linter.unusedVariables false
set_option maxHeartbeats 1600000
set_option linter.unusedTactic false

namespace Fbjs

/-! ## Node kinds

One constructor per concrete C++ node class (typeid identity). -/

inductive NKind where
  | program | statementList | numericLit | stringLit | regexLit | booleanLit
  | nullLit | thisExpr | emptyExpr | operatorExpr | conditionalExpr
  | parenthetical | assignment | unaryExpr | postfixExpr | identifier
  | argList | functionDecl | functionExpr | functionCall | functionCtor
  | ifStmt | withStmt | tryStmt | stmtWithExpr | labelStmt | switchStmt
  | caseClause | defaultClause | varDecl | objectLit | objectProp | arrayLit
  | staticMember | dynamicMember | forLoop | forIn | whileStmt | doWhile
  deriving DecidableEq, Repr

/-- node_operator_t (binary operator tags of NodeOperator). -/
inductive OpTag where
  | comma | rshift3 | rshift | lshift | orOp | andOp | bitXor | bitAnd
  | bitOr | equal | notEqual | strictEqual | strictNotEqual | lessThanEqual
  | greaterThanEqual | lessThan | greaterThan | plus | minus | div | mult
  | mod | inOp | instanceofOp
  deriving DecidableEq, Repr

/-- node_assignment_t (assignment operator tags of NodeAssignment). -/
inductive AsgTag where
  | assign | multAssign | divAssign | modAssign | plusAssign | minusAssign
  | lshiftAssign | rshiftAssign | rshift3Assign | bitAndAssign
  | bitXorAssign | bitOrAssign
  deriving DecidableEq, Repr

/-- node_unary_t (unary operator tags of NodeUnary). -/
inductive UnTag where
  | deleteOp | voidOp | typeofOp | incrUnary | decrUnary | plusUnary
  | minusUnary | bitNotUnary | notUnary
  deriving DecidableEq, Repr

/-- node_postfix_t (tags of NodePostfix). -/
inductive PfTag where
  | incrPf | decrPf
  deriving DecidableEq, Repr

/-- node_statement_with_expression_t (tags of NodeStatementWithExpression). -/
inductive SweTag where
  | throwStmt | returnStmt | continueStmt | breakStmt
  deriving DecidableEq, Repr

/-- The per-kind data members of the concrete node classes.  The numeric
literal's double is carried as a rational: the reduce/equality/render code
never does arithmetic on it, it is only compared for equality and against
zero and passed to the external formatter. -/
inductive NPayload where
  | noPayload
  | numP (value : Rat)
  | strP (value : String) (quoted : Bool)
  | regexP (value : String) (flags : String)
  | boolP (value : Bool)
  | opP (tag : OpTag)
  | asgP (tag : AsgTag)
  | unP (tag : UnTag)
  | pfP (tag : PfTag)
  | idP (name : String)
  | sweP (tag : SweTag)
  | iterP (iterator : Bool)
  deriving DecidableEq, Repr

/-- A node: concrete kind (typeid), per-kind data members, _lineno, and the
ordered child list _childNodes whose entries may be NULL (absent slots). -/
inductive Node : Type where
  | mk (kind : NKind) (payload : NPayload) (lineno : Nat)
       (children : List (Option Node))
  deriving Repr

def Node.kindOf : Node → NKind
  | .mk k _ _ _ => k

def Node.payloadOf : Node → NPayload
  | .mk _ p _ _ => p

def Node.linenoOf : Node → Nat
  | .mk _ _ l _ => l

def Node.childrenOf : Node → List (Option Node)
  | .mk _ _ _ cs => cs

theorem nkind_sizeOf (k : NKind) : sizeOf k = 1 := by
  cases k <;> rfl

/-- Which concrete classes derive from NodeExpression in node.hpp, as
witnessed by the constructor initializer lists in node.cpp
(dynamic_cast-to-NodeExpression succeeds exactly for these). -/
def isExpression : NKind → Bool
  | .numericLit | .stringLit | .regexLit | .booleanLit | .nullLit
  | .thisExpr | .emptyExpr | .operatorExpr | .conditionalExpr
  | .parenthetical | .assignment | .unaryExpr | .postfixExpr | .identifier
  | .functionExpr | .functionCall | .functionCtor | .objectLit | .arrayLit
  | .staticMember | .dynamicMember => true
  | _ => false

/-! ## Child-slot accessors

The C++ walks _childNodes with std::list iterators; these model front(),
the second element (++begin), the third element, and back(). -/

/-- _childNodes.front(); on an empty list the source's front() is undefined,
modelled as an absent slot. -/
def frontSlot (cs : List (Option Node)) : Option Node :=
  match cs with
  | [] => none
  | x :: _ => x

/-- The element at ++begin(); undefined in the source when there is no
second element, modelled as an absent slot. -/
def secondSlot (cs : List (Option Node)) : Option Node :=
  match cs with
  | _ :: x :: _ => x
  | _ => none

/-- The element two past begin(); undefined in the source when there is no
third element, modelled as an absent slot. -/
def thirdSlot (cs : List (Option Node)) : Option Node :=
  match cs with
  | _ :: _ :: x :: _ => x
  | _ => none

/-- _childNodes.back(); undefined in the source on an empty list, modelled
as an absent slot. -/
def backSlot (cs : List (Option Node)) : Option Node :=
  (cs.getLast?).getD none

theorem sizeOf_lt_of_frontSlot {cs : List (Option Node)} {c : Node}
    (h : frontSlot cs = some c) : sizeOf c < sizeOf cs := by
  match cs with
  | [] => simp [frontSlot] at h
  | x :: tl =>
    simp only [frontSlot] at h
    subst h
    simp
    omega

theorem sizeOf_lt_of_secondSlot {cs : List (Option Node)} {c : Node}
    (h : secondSlot cs = some c) : sizeOf c < sizeOf cs := by
  match cs with
  | [] => simp [secondSlot] at h
  | [x] => simp [secondSlot] at h
  | x :: y :: tl =>
    simp only [secondSlot] at h
    subst h
    simp
    omega

theorem sizeOf_lt_of_thirdSlot {cs : List (Option Node)} {c : Node}
    (h : thirdSlot cs = some c) : sizeOf c < sizeOf cs := by
  match cs with
  | [] => simp [thirdSlot] at h
  | [x] => simp [thirdSlot] at h
  | [x, y] => simp [thirdSlot] at h
  | x :: y :: z :: tl =>
    simp only [thirdSlot] at h
    subst h
    simp
    omega

theorem sizeOf_lt_of_memSlot {cs : List (Option Node)} {c : Node}
    (h : some c ∈ cs) : sizeOf c < sizeOf cs := by
  have h1 := List.sizeOf_lt_of_mem h
  simp at h1
  omega

theorem sizeOf_lt_of_backSlot {cs : List (Option Node)} {c : Node}
    (h : backSlot cs = some c) : sizeOf c < sizeOf cs := by
  have hm : some c ∈ cs := by
    unfold backSlot at h
    match h2 : cs.getLast? with
    | none => rw [h2] at h; simp at h
    | some x =>
      rw [h2] at h
      simp at h
      subst h
      rcases List.mem_getLast?_eq_getLast (by rw [h2]; exact Option.mem_def.mpr rfl) with ⟨hne, hx⟩
      rw [hx]
      exact List.getLast_mem hne
  exact sizeOf_lt_of_memSlot hm

/-! ## Identifier classifier (is_reserved_keyword / is_identifier) -/

/-- The keyword_set of is_reserved_keyword: ECMA-262 keywords, future
reserved words, and the literals true/false/null. -/
def reservedKeywords : List String :=
  ["break", "case", "catch", "continue", "default", "delete", "do", "else",
   "finally", "for", "function", "if", "in", "instanceof", "new", "return",
   "switch", "this", "throw", "try", "typeof", "var", "void", "while",
   "with",
   "abstract", "boolean", "byte", "char", "class", "const", "debugger",
   "double", "enum", "export", "extends", "final", "float", "goto",
   "implements", "import", "int", "interface", "long", "native",
   "package", "private", "protected", "public", "short", "static",
   "super", "synchronized", "throws", "transient", "volatile",
   "true", "false", "null"]

def is_reserved_keyword (id : String) : Bool :=
  decide (id ∈ reservedKeywords)

/-- is_identifier: "[a-zA-Z$_][a-zA-Z$_0-9]*" and not a reserved keyword
(ASCII isalpha/isdigit semantics; no escaped-unicode recognition). -/
def is_identifier (id : String) : Bool :=
  match id.toList with
  | [] => false
  | first :: rest =>
    if is_reserved_keyword id then false
    else if !first.isAlpha && !decide (first = '$') && !decide (first = '_') then false
    else rest.all fun c => c.isAlpha || c.isDigit || c = '$' || c = '_'

/-- Modelled from the spec: NodeStringLiteral::unquoted_value is declared in
the header node.hpp, which is not part of the sources here.  Per the spec,
dynamic-member and object-property rewriting uses "a string-literal whose
unquoted value is a legal identifier": the stored value stripped of its
surrounding quote characters when the literal was stored in quoted source
form, and the stored value itself otherwise. -/
def unquoted_value (value : String) (quoted : Bool) : String :=
  if quoted then (value.drop 1).dropRight 1 else value

/-! ## Static truthiness (NodeExpression::compare and its overrides) -/

/-- compare(bool): NodeNumericLiteral compares its value against zero,
NodeBooleanLiteral compares its value, NodeParenthetical delegates to its
first child, and every other expression kind returns false
(NodeExpression::compare).  Non-expression kinds have no compare in the
source (calling it through a cast pointer is undefined); modelled as false.
A parenthetical with no first child dereferences front() of an empty list
in the source (undefined); modelled as false.  A kind/payload mismatch is
unrepresentable in C++; modelled as false. -/
def compareN (n : Node) (b : Bool) : Bool :=
  match n with
  | .mk .numericLit (.numP v) _ _ => if b then decide (v ≠ 0) else decide (v = 0)
  | .mk .booleanLit (.boolP v) _ _ => decide (b = v)
  | .mk .parenthetical _ _ (some c :: _) => compareN c b
  | .mk .parenthetical _ _ _ => false
  | _ => false
termination_by sizeOf n
decreasing_by
  simp_wf
  omega

/-! ## The reduce pass -/

/-- NodeUnary::reduce.  It does not recurse into its operand: it folds
logical NOT of a provably-true/false expression to a boolean literal and
otherwise returns the node unchanged.  The dynamic_cast-to-NodeExpression
guard is the isExpression test (dynamic_cast of NULL is NULL, so an absent
operand is handled, not undefined). -/
def unaryStep (p : NPayload) (l : Nat) (cs : List (Option Node)) : Option Node :=
  if p = .unP .notUnary then
    match frontSlot cs with
    | some c =>
      if isExpression c.kindOf then
        if compareN c true then some (.mk .booleanLit (.boolP false) 0 [])
        else if compareN c false then some (.mk .booleanLit (.boolP true) 0 [])
        else some (.mk .unaryExpr p l cs)
      else some (.mk .unaryExpr p l cs)
    | none => some (.mk .unaryExpr p l cs)
  else some (.mk .unaryExpr p l cs)

/-- The guarded compare of NodeOperator::reduce:
dynamic_cast<NodeExpression*>(child)->compare(b).  The source dereferences
the cast result without a null check, which is undefined when the slot is
absent or not an expression; modelled as a failed comparison. -/
def opCompareSlot (s : Option Node) (b : Bool) : Bool :=
  match s with
  | some c => isExpression c.kindOf && compareN c b
  | none => false

/-- The unguarded compare of NodeConditionalExpression::reduce and
NodeIf::reduce: static_cast<NodeExpression*>(child)->compare(b).  Undefined
in the source when the slot is absent; modelled as a failed comparison. -/
def condCompareSlot (s : Option Node) (b : Bool) : Bool :=
  match s with
  | some c => compareN c b
  | none => false

/-- NodeOperator::reduce after its children have been reduced in place:
OR/AND/COMMA short-circuit folding.  Comparisons read front() and back();
the subtree returned for a folded OR/AND/COMMA is removeChild(begin) or
removeChild(++begin). -/
def opPost (p : NPayload) (l : Nat) (cs : List (Option Node)) : Option Node :=
  match p with
  | .opP .orOp =>
    if opCompareSlot (frontSlot cs) true then frontSlot cs
    else if opCompareSlot (frontSlot cs) false then
      if opCompareSlot (backSlot cs) true then secondSlot cs
      else if opCompareSlot (backSlot cs) false then
        some (.mk .booleanLit (.boolP false) 0 [])
      else some (.mk .operatorExpr p l cs)
    else some (.mk .operatorExpr p l cs)
  | .opP .andOp =>
    if opCompareSlot (frontSlot cs) false then
      some (.mk .booleanLit (.boolP false) 0 [])
    else if opCompareSlot (frontSlot cs) true then
      if opCompareSlot (backSlot cs) false then
        some (.mk .booleanLit (.boolP false) 0 [])
      else secondSlot cs
    else some (.mk .operatorExpr p l cs)
  | .opP .comma =>
    if opCompareSlot (frontSlot cs) false || opCompareSlot (frontSlot cs) true then
      secondSlot cs
    else some (.mk .operatorExpr p l cs)
  | _ => some (.mk .operatorExpr p l cs)

/-- NodeConditionalExpression::reduce after child reduction: a provably
true test keeps the second slot, a provably false test keeps the third,
otherwise the node is returned. -/
def condPost (p : NPayload) (l : Nat) (cs : List (Option Node)) : Option Node :=
  if condCompareSlot (frontSlot cs) true then secondSlot cs
  else if condCompareSlot (frontSlot cs) false then thirdSlot cs
  else some (.mk .conditionalExpr p l cs)

/-- childNodes().empty() of a possibly-absent block child, as read by
NodeIf::reduce.  The source dereferences the child without a null check
(undefined when absent); modelled as an empty child list. -/
def emptyChildrenUB (s : Option Node) : Bool :=
  match s with
  | some n => n.childrenOf.isEmpty
  | none => true

/-- NodeIf::reduce after child reduction, in source order: a provably true
test keeps the if-branch slot; a provably false test keeps the else slot
(absent else removes the node); otherwise an empty else block is dropped,
then an if with both branches empty collapses to its condition, and an if
with only the if-branch empty gets its condition wrapped in a reduced
parenthesized negation with the branches swapped. -/
def ifPost (p : NPayload) (l : Nat) (cs : List (Option Node)) : Option Node :=
  if condCompareSlot (frontSlot cs) true then secondSlot cs
  else if condCompareSlot (frontSlot cs) false then thirdSlot cs
  else
    let cond := frontSlot cs
    let ifSlot := secondSlot cs
    let elseSlot :=
      match thirdSlot cs with
      | some e => if e.childrenOf.isEmpty then none else some e
      | none => none
    if emptyChildrenUB ifSlot then
      match elseSlot with
      | none => cond
      | some e =>
        let ln := match cond with
                  | some c => c.linenoOf
                  | none => 0
        some (.mk .ifStmt p l
          [unaryStep (.unP .notUnary) ln
             [some (.mk .parenthetical .noPayload ln [cond])],
           some e, none])
    else
      some (.mk .ifStmt p l [cond, ifSlot, elseSlot])

/-- NodeFunctionCall::reduce after child reduction: a call whose callee is
the identifier "bagofholding" collapses to a boolean false literal. -/
def callPost (p : NPayload) (l : Nat) (cs : List (Option Node)) : Option Node :=
  match frontSlot cs with
  | some (.mk .identifier (.idP name) _ _) =>
    if name = "bagofholding" then some (.mk .booleanLit (.boolP false) 0 [])
    else some (.mk .functionCall p l cs)
  | _ => some (.mk .functionCall p l cs)

/-- NodeObjectLiteralProperty::reduce after child reduction: a
string-literal key whose unquoted value is a legal identifier is replaced
by a bare identifier key on a fresh property node.  An absent first slot
would be dereferenced by typeid in the source (undefined); modelled as the
unchanged node. -/
def propPost (p : NPayload) (l : Nat) (cs : List (Option Node)) : Option Node :=
  if cs.length = 0 then some (.mk .objectProp p l cs)
  else
    match frontSlot cs with
    | some (.mk .stringLit (.strP v q) litLn _) =>
      if is_identifier (unquoted_value v q) then
        some (.mk .objectProp .noPayload l
          [some (.mk .identifier (.idP (unquoted_value v q)) litLn []),
           backSlot cs])
      else some (.mk .objectProp p l cs)
    | _ => some (.mk .objectProp p l cs)

/-- NodeDynamicMemberExpression::reduce after child reduction: a
string-literal subscript whose unquoted value is a legal identifier turns
the access into a static member access with an identifier child.  An absent
back slot would be dereferenced by typeid in the source (undefined);
modelled as the unchanged node. -/
def dynPost (p : NPayload) (l : Nat) (cs : List (Option Node)) : Option Node :=
  match backSlot cs with
  | some (.mk .stringLit (.strP v q) litLn _) =>
    if is_identifier (unquoted_value v q) then
      some (.mk .staticMember .noPayload l
        [frontSlot cs,
         some (.mk .identifier (.idP (unquoted_value v q)) litLn [])])
    else some (.mk .dynamicMember p l cs)
  | _ => some (.mk .dynamicMember p l cs)

/-- The per-child filter of NodeStatementList::reduce: an absent child is
removed, a child that reduced away is removed, and a reduced child that is
a constant expression (compare(true) or compare(false), hence
side-effect-free) is removed. -/
def slKeep (s : Option Node) : Option (Option Node) :=
  match s with
  | none => none
  | some t =>
    if isExpression t.kindOf && (compareN t true || compareN t false) then none
    else some (some t)

/-- NodeStatementList::reduce after its children have been reduced:
drop the slots slKeep rejects. -/
def slPost (p : NPayload) (l : Nat) (cs : List (Option Node)) : Option Node :=
  some (.mk .statementList p l (cs.filterMap slKeep))

/-- Dispatch of the kind-specific reduce logic that runs after the default
child-reducing loop of Node::reduce.  Kinds without an override keep the
node with its reduced children. -/
def postReduce (k : NKind) (p : NPayload) (l : Nat)
    (cs : List (Option Node)) : Option Node :=
  match k with
  | .statementList => slPost p l cs
  | .operatorExpr => opPost p l cs
  | .conditionalExpr => condPost p l cs
  | .ifStmt => ifPost p l cs
  | .functionCall => callPost p l cs
  | .objectProp => propPost p l cs
  | .dynamicMember => dynPost p l cs
  | _ => some (.mk k p l cs)

mutual

/-- Node::reduce and its overrides.  Every override except NodeUnary's
first runs the default loop that replaces each present child with its
reduction (absent slots are skipped), then applies its kind-specific
rewrite; NodeUnary::reduce does not touch its children.  A result of none
models a reduce that returned NULL (node removed). -/
def reduceOpt (n : Node) : Option Node :=
  match n with
  | .mk k p l cs =>
    if k = .unaryExpr then unaryStep p l cs
    else postReduce k p l (reduceChildren cs)

/-- The child loop of Node::reduce: each present child is replaced by its
reduction (which may be NULL), absent slots are kept. -/
def reduceChildren (cs : List (Option Node)) : List (Option Node) :=
  match cs with
  | [] => []
  | none :: tl => none :: reduceChildren tl
  | some c :: tl => reduceOpt c :: reduceChildren tl

end

/-! ## Structural equality (Node::operator== and its overrides) -/

mutual

/-- Node::operator== and the overrides of the literal/identifier/operator
kinds.  The literal kinds compare via dynamic_cast (same concrete kind) and
their data members only, ignoring children and line numbers; the operator
kinds run the base comparison and then compare their tag; every other kind
runs the base comparison: same typeid, then the child loop (childrenEq).
A kind/payload mismatch is unrepresentable in C++; such states are compared
by payload so the comparison stays reflexive on them. -/
def nodeEq (a b : Node) : Bool :=
  match a, b with
  | .mk ka pa _ ca, .mk kb pb _ cb =>
    match ka with
    | .numericLit =>
      decide (kb = .numericLit) &&
        (match pa, pb with
         | .numP x, .numP y => decide (x = y)
         | _, _ => decide (pa = pb))
    | .stringLit =>
      decide (kb = .stringLit) &&
        (match pa, pb with
         | .strP x _, .strP y _ => decide (x = y)
         | _, _ => decide (pa = pb))
    | .regexLit =>
      decide (kb = .regexLit) &&
        (match pa, pb with
         | .regexP x f, .regexP y g => decide (x = y) && decide (f = g)
         | _, _ => decide (pa = pb))
    | .booleanLit =>
      decide (kb = .booleanLit) &&
        (match pa, pb with
         | .boolP x, .boolP y => decide (x = y)
         | _, _ => decide (pa = pb))
    | .identifier =>
      decide (kb = .identifier) &&
        (match pa, pb with
         | .idP x, .idP y => decide (x = y)
         | _, _ => decide (pa = pb))
    | .operatorExpr => decide (kb = ka) && childrenEq ca cb && decide (pa = pb)
    | .assignment => decide (kb = ka) && childrenEq ca cb && decide (pa = pb)
    | .unaryExpr => decide (kb = ka) && childrenEq ca cb && decide (pa = pb)
    | .postfixExpr => decide (kb = ka) && childrenEq ca cb && decide (pa = pb)
    | .stmtWithExpr => decide (kb = ka) && childrenEq ca cb && decide (pa = pb)
    | _ => decide (kb = ka) && childrenEq ca cb
termination_by sizeOf a + sizeOf b
decreasing_by
  all_goals simp_wf
  all_goals try simp only [nkind_sizeOf]
  all_goals omega

/-- The child loop of Node::operator==.  xs are this's children, ys are
that's; the element comparison **jj != **ii dispatches on that's child
(optEqRev).  The loop exits successfully as soon as either list is
exhausted after a successful element comparison, except that exhausting
that's list first fails if this still has children; when this's list is
empty the loop never runs and the comparison succeeds whatever that's
children are. -/
def childrenEq (xs ys : List (Option Node)) : Bool :=
  match xs, ys with
  | [], _ => true
  | _ :: _, [] => false
  | x :: xs', [y] => optEqRev x y && xs'.isEmpty
  | [x], y :: _ :: _ => optEqRev x y
  | x :: x2 :: xs2, y :: y2 :: ys2 =>
    optEqRev x y && childrenEq (x2 :: xs2) (y2 :: ys2)
termination_by sizeOf xs + sizeOf ys
decreasing_by
  all_goals simp_wf
  all_goals try simp only [nkind_sizeOf]
  all_goals omega

/-- The element comparison of the child loop: both child pointers are
dereferenced and compared with that-child == this-child.  Dereferencing an
absent slot is undefined in the source; modelled as comparing presence. -/
def optEqRev (x y : Option Node) : Bool :=
  match x, y with
  | some a, some b => nodeEq b a
  | none, none => true
  | _, _ => false
termination_by sizeOf x + sizeOf y
decreasing_by
  all_goals simp_wf
  all_goals try simp only [nkind_sizeOf]
  all_goals omega

end

/-! ## Deep clone (Node::clone and its overrides) -/

mutual

/-- Node::clone through the per-kind overrides: each override builds a
fresh default-constructed node of its own kind (so NodeProgram's line is 1
and every other clone's line is the default 0, and NodeVarDeclaration's
iterator flag resets to false), copies its data members, and — except for
the numeric/string/regex/boolean literal clones, which do not call
Node::clone — deep-clones the children, leaving absent slots absent. -/
def cloneNode (n : Node) : Node :=
  match n with
  | .mk k p _ cs =>
    match k with
    | .program => .mk .program .noPayload 1 (cloneChildren cs)
    | .numericLit => .mk .numericLit p 0 []
    | .stringLit => .mk .stringLit p 0 []
    | .regexLit => .mk .regexLit p 0 []
    | .booleanLit => .mk .booleanLit p 0 []
    | .varDecl => .mk .varDecl (.iterP false) 0 (cloneChildren cs)
    | _ => .mk k p 0 (cloneChildren cs)

def cloneChildren (cs : List (Option Node)) : List (Option Node) :=
  match cs with
  | [] => []
  | none :: tl => none :: cloneChildren tl
  | some c :: tl => some (cloneNode c) :: cloneChildren tl

end

/-! ## Renderer -/

/-- The element at three past begin() (the finally slot of NodeTry and the
body slot of NodeForLoop); undefined in the source when there is no fourth
element, modelled as an absent slot. -/
def fourthSlot (cs : List (Option Node)) : Option Node :=
  match cs with
  | _ :: _ :: _ :: x :: _ => x
  | _ => none

theorem sizeOf_lt_of_fourthSlot {cs : List (Option Node)} {c : Node}
    (h : fourthSlot cs = some c) : sizeOf c < sizeOf cs := by
  match cs with
  | [] => simp [fourthSlot] at h
  | [x] => simp [fourthSlot] at h
  | [x, y] => simp [fourthSlot] at h
  | [x, y, z] => simp [fourthSlot] at h
  | x :: y :: z :: w :: tl =>
    simp only [fourthSlot] at h
    subst h
    simp
    omega

/-- render_guts_t: the mutable render context. -/
structure Guts where
  pretty : Bool
  sanelineno : Bool
  lineno : Nat
  deriving DecidableEq, Repr

/-- Node::renderLinenoCatchup: when the node carries a known source line
greater than the context's current line, emit (lineno - guts->lineno)
newline characters and advance the context's line to the node's; a node
with line 0, or a line not exceeding the current counter, emits nothing.
Returns the emitted text, the updated context, and the bool result. -/
def renderLinenoCatchup (nodeLineno : Nat) (g : Guts) : String × Guts × Bool :=
  if nodeLineno = 0 ∨ g.lineno ≥ nodeLineno then ("", g, false)
  else (String.mk (List.replicate (nodeLineno - g.lineno) '\n'),
        { g with lineno := nodeLineno }, true)

/-- The pretty-mode indentation loop: two spaces per level, none for a
non-positive depth. -/
def indentStr (ind : Int) : String :=
  String.join (List.replicate ind.toNat "  ")

/-- Modelled from the spec: the external numeric formatter g_fmt (shortest
round-trip decimal text of a double, valid as a numeric literal) is not
part of the sources here; it is carried as a deterministic placeholder on
the rational payload, and no claim depends on its output. -/
def gFmt (v : Rat) : String :=
  toString v.num ++ "/" ++ toString v.den

/-- The token table of NodeOperator::render; in/instanceof take mandatory
spaces exactly when padding is still set (non-pretty mode). -/
def opToken (t : OpTag) (padding : Bool) : String :=
  match t with
  | .comma => ","
  | .rshift3 => ">>>"
  | .rshift => ">>"
  | .lshift => "<<"
  | .orOp => "||"
  | .andOp => "&&"
  | .bitXor => "^"
  | .bitAnd => "&"
  | .bitOr => "|"
  | .equal => "=="
  | .notEqual => "!="
  | .strictEqual => "==="
  | .strictNotEqual => "!=="
  | .lessThanEqual => "<="
  | .greaterThanEqual => ">="
  | .lessThan => "<"
  | .greaterThan => ">"
  | .plus => "+"
  | .minus => "-"
  | .div => "/"
  | .mult => "*"
  | .mod => "%"
  | .inOp => if padding then " in " else "in"
  | .instanceofOp => if padding then " instanceof " else "instanceof"

/-- The token table of NodeAssignment::render. -/
def asgToken (t : AsgTag) : String :=
  match t with
  | .assign => "="
  | .multAssign => "*="
  | .divAssign => "/="
  | .modAssign => "%="
  | .plusAssign => "+="
  | .minusAssign => "-="
  | .lshiftAssign => "<<="
  | .rshiftAssign => ">>="
  | .rshift3Assign => ">>>="
  | .bitAndAssign => "&="
  | .bitXorAssign => "^="
  | .bitOrAssign => "|="

/-- The token table of NodeUnary::render with its need_space flag (set for
the word operators delete/void/typeof). -/
def unToken (t : UnTag) : String × Bool :=
  match t with
  | .deleteOp => ("delete", true)
  | .voidOp => ("void", true)
  | .typeofOp => ("typeof", true)
  | .incrUnary => ("++", false)
  | .decrUnary => ("--", false)
  | .plusUnary => ("+", false)
  | .minusUnary => ("-", false)
  | .bitNotUnary => ("~", false)
  | .notUnary => ("!", false)

/-- The token table of NodePostfix::render. -/
def pfToken (t : PfTag) : String :=
  match t with
  | .incrPf => "++"
  | .decrPf => "--"

/-- The keyword table of NodeStatementWithExpression::render. -/
def sweToken (t : SweTag) : String :=
  match t with
  | .throwStmt => "throw"
  | .returnStmt => "return"
  | .continueStmt => "continue"
  | .breakStmt => "break"

/-- sizeOf bound for the front slot accessor. -/
theorem slotSize_front (cs : List (Option Node)) : sizeOf (frontSlot cs) ≤ sizeOf cs := by
  match cs with
  | [] => simp [frontSlot]
  | x :: tl => simp [frontSlot]; try omega

/-- sizeOf bound for the second-slot accessor. -/
theorem slotSize_second (cs : List (Option Node)) : sizeOf (secondSlot cs) ≤ sizeOf cs := by
  match cs with
  | [] => simp [secondSlot]
  | [x] => simp [secondSlot]; try omega
  | x :: y :: tl => simp [secondSlot]; try omega

/-- sizeOf bound for the third-slot accessor. -/
theorem slotSize_third (cs : List (Option Node)) : sizeOf (thirdSlot cs) ≤ sizeOf cs := by
  match cs with
  | [] => simp [thirdSlot]
  | [x] => simp [thirdSlot]; try omega
  | [x, y] => simp [thirdSlot]; try omega
  | x :: y :: z :: tl => simp [thirdSlot]; try omega

/-- sizeOf bound for the fourth-slot accessor. -/
theorem slotSize_fourth (cs : List (Option Node)) : sizeOf (fourthSlot cs) ≤ sizeOf cs := by
  match cs with
  | [] => simp [fourthSlot]
  | [x] => simp [fourthSlot]; try omega
  | [x, y] => simp [fourthSlot]; try omega
  | [x, y, z] => simp [fourthSlot]; try omega
  | x :: y :: z :: w :: tl => simp [fourthSlot]; try omega

/-- sizeOf bound for the back-slot accessor. -/
theorem slotSize_back (cs : List (Option Node)) : sizeOf (backSlot cs) ≤ sizeOf cs := by
  match cs with
  | [] => simp [backSlot]
  | [x] => simp [backSlot]; omega
  | x :: y :: tl =>
    have ih := slotSize_back (y :: tl)
    have hc : backSlot (x :: y :: tl) = backSlot (y :: tl) := by
      simp [backSlot]
    rw [hc]
    simp at ih ⊢
    omega

mutual

/-- render(render_guts_t*, int) per concrete kind, threading the mutable
context.  NodeProgram uses the base Node::render (its first child's
render); every other kind overrides it as transcribed case by case below.
Dereferences of absent slots are undefined in the source and are modelled
as contributing no output (renderSlot / renderBlockSlot). -/
def render (n : Node) (g : Guts) (ind : Int) : String × Guts :=
  match n with
  | .mk k p _l cs =>
    match k with
    | .program => renderSlot (frontSlot cs) g ind
    | .statementList => renderIndentedList cs g ind
    | .numericLit =>
      ((match p with
        | .numP v => gFmt v
        | _ => ""), g)
    | .stringLit =>
      ((match p with
        | .strP v q => if q then v else "\"" ++ v ++ "\""
        | _ => ""), g)
    | .regexLit =>
      ((match p with
        | .regexP v f => "/" ++ v ++ "/" ++ f
        | _ => ""), g)
    | .booleanLit =>
      ((match p with
        | .boolP v => if v then "true" else "false"
        | _ => ""), g)
    | .nullLit => ("null", g)
    | .thisExpr => ("this", g)
    | .emptyExpr => ("", g)
    | .operatorExpr =>
      let r1 := renderSlot (frontSlot cs) g ind
      let pre :=
        if g.pretty then
          match p with
          | .opP .comma => ""
          | _ => " "
        else ""
      let tok :=
        match p with
        | .opP t => opToken t (!g.pretty)
        | _ => ""
      let post := if g.pretty then " " else ""
      let r2 := renderSlot (backSlot cs) r1.2 ind
      (r1.1 ++ pre ++ tok ++ post ++ r2.1, r2.2)
    | .conditionalExpr =>
      let r1 := renderSlot (frontSlot cs) g ind
      let r2 := renderSlot (secondSlot cs) r1.2 ind
      let r3 := renderSlot (thirdSlot cs) r2.2 ind
      (r1.1 ++ (if g.pretty then " ? " else "?") ++ r2.1 ++
        (if g.pretty then " : " else ":") ++ r3.1, r3.2)
    | .parenthetical =>
      let r1 := renderSlot (frontSlot cs) g ind
      ("(" ++ r1.1 ++ ")", r1.2)
    | .assignment =>
      let r1 := renderSlot (frontSlot cs) g ind
      let sp := if g.pretty then " " else ""
      let tok :=
        match p with
        | .asgP t => asgToken t
        | _ => ""
      let r2 := renderSlot (backSlot cs) r1.2 ind
      (r1.1 ++ sp ++ tok ++ sp ++ r2.1, r2.2)
    | .unaryExpr =>
      let tokSp :=
        match p with
        | .unP t => unToken t
        | _ => ("", false)
      let frontParen :=
        match frontSlot cs with
        | some c => decide (c.kindOf = .parenthetical)
        | none => false
      let sp := if tokSp.2 && !frontParen then " " else ""
      let r1 := renderSlot (frontSlot cs) g ind
      (tokSp.1 ++ sp ++ r1.1, r1.2)
    | .postfixExpr =>
      let r1 := renderSlot (frontSlot cs) g ind
      (r1.1 ++ (match p with
                | .pfP t => pfToken t
                | _ => ""), r1.2)
    | .identifier =>
      ((match p with
        | .idP name => name
        | _ => ""), g)
    | .argList =>
      let r := renderImplode cs g ind (if g.pretty then ", " else ",")
      ("(" ++ r.1 ++ ")", r.2)
    | .functionDecl =>
      let r1 := renderSlot (frontSlot cs) g ind
      let r2 := renderSlot (secondSlot cs) r1.2 ind
      let r3 := renderBlockSlot true (thirdSlot cs) r2.2 ind
      ("function " ++ r1.1 ++ r2.1 ++ r3.1, r3.2)
    | .functionExpr =>
      let r1 :=
        if (frontSlot cs).isSome then
          let t := renderSlot (frontSlot cs) g ind
          (" " ++ t.1, t.2)
        else ("", g)
      let r2 := renderSlot (secondSlot cs) r1.2 ind
      let r3 := renderBlockSlot true (thirdSlot cs) r2.2 ind
      ("function" ++ r1.1 ++ r2.1 ++ r3.1, r3.2)
    | .functionCall =>
      let r1 := renderSlot (frontSlot cs) g ind
      let r2 := renderSlot (backSlot cs) r1.2 ind
      (r1.1 ++ r2.1, r2.2)
    | .functionCtor =>
      let r1 := renderSlot (frontSlot cs) g ind
      let r2 := renderSlot (backSlot cs) r1.2 ind
      ("new " ++ r1.1 ++ r2.1, r2.2)
    | .ifStmt =>
      let r1 := renderSlot (frontSlot cs) g ind
      let head := (if g.pretty then "if (" else "if(") ++ r1.1 ++ ")"
      let needBraces :=
        g.pretty || emptyChildrenUB (secondSlot cs) || (thirdSlot cs).isSome
      let r2 := renderBlockSlot needBraces (secondSlot cs) r1.2 ind
      let r3 := renderIfElse (thirdSlot cs) r2.2 ind
      (head ++ r2.1 ++ r3.1, r3.2)
    | .withStmt =>
      let r1 := renderSlot (frontSlot cs) g ind
      let r2 := renderBlockSlot false (secondSlot cs) r1.2 ind
      ((if g.pretty then "with (" else "with(") ++ r1.1 ++ ")" ++ r2.1, r2.2)
    | .tryStmt =>
      let r1 := renderBlockSlot true (frontSlot cs) g ind
      let rc :=
        if (secondSlot cs).isSome then
          let kw := if g.pretty then " catch (" else "catch("
          let rA := renderSlot (secondSlot cs) r1.2 ind
          let rB := renderBlockSlot true (thirdSlot cs) rA.2 ind
          (kw ++ rA.1 ++ ")" ++ rB.1, rB.2)
        else ("", r1.2)
      let rf :=
        if (fourthSlot cs).isSome then
          let kw := if g.pretty then " finally" else "finally"
          let rA := renderBlockSlot true (fourthSlot cs) rc.2 ind
          (kw ++ rA.1, rA.2)
        else ("", rc.2)
      ("try" ++ r1.1 ++ rc.1 ++ rf.1, rf.2)
    | .stmtWithExpr =>
      let kw :=
        match p with
        | .sweP t => sweToken t
        | _ => ""
      if (backSlot cs).isSome then
        let r1 := renderSlot (frontSlot cs) g ind
        (kw ++ " " ++ r1.1, r1.2)
      else (kw, g)
    | .labelStmt =>
      let r1 := renderSlot (frontSlot cs) g ind
      let r2 := renderSlot (backSlot cs) r1.2 ind
      (r1.1 ++ (if g.pretty then ": " else ":") ++ r2.1, r2.2)
    | .switchStmt =>
      let r1 := renderSlot (frontSlot cs) g ind
      let r2 := renderBlockSlot true (backSlot cs) r1.2 (ind + 1)
      ("switch(" ++ r1.1 ++ ")" ++ r2.1, r2.2)
    | .caseClause =>
      let r1 := renderSlot (frontSlot cs) g ind
      ("case " ++ r1.1 ++ ":", r1.2)
    | .defaultClause => ("default:", g)
    | .varDecl =>
      let r := renderImplode cs g ind (if g.pretty then ", " else ",")
      ("var " ++ r.1, r.2)
    | .objectLit =>
      let r := renderImplode cs g ind (if g.pretty then ", " else ",")
      ("\x7b" ++ r.1 ++ "\x7d", r.2)
    | .objectProp =>
      let r1 := renderSlot (frontSlot cs) g ind
      let r2 := renderSlot (backSlot cs) r1.2 ind
      (r1.1 ++ (if g.pretty then ": " else ":") ++ r2.1, r2.2)
    | .arrayLit =>
      let r := renderImplode cs g ind (if g.pretty then ", " else ",")
      ("[" ++ r.1 ++ "]", r.2)
    | .staticMember =>
      let r1 := renderSlot (frontSlot cs) g ind
      let r2 := renderSlot (backSlot cs) r1.2 ind
      (r1.1 ++ "." ++ r2.1, r2.2)
    | .dynamicMember =>
      let r1 := renderSlot (frontSlot cs) g ind
      let r2 := renderSlot (backSlot cs) r1.2 ind
      (r1.1 ++ "[" ++ r2.1 ++ "]", r2.2)
    | .forLoop =>
      let r1 := renderSlot (frontSlot cs) g ind
      let r2 := renderSlot (secondSlot cs) r1.2 ind
      let r3 := renderSlot (thirdSlot cs) r2.2 ind
      let r4 := renderBlockSlot false (fourthSlot cs) r3.2 ind
      ((if g.pretty then "for (" else "for(") ++ r1.1 ++
        (if g.pretty then "; " else ";") ++ r2.1 ++
        (if g.pretty then "; " else ";") ++ r3.1 ++ ")" ++ r4.1, r4.2)
    | .forIn =>
      let r1 := renderSlot (frontSlot cs) g ind
      let r2 := renderSlot (secondSlot cs) r1.2 ind
      let r3 := renderBlockSlot false (thirdSlot cs) r2.2 ind
      ((if g.pretty then "for (" else "for(") ++ r1.1 ++ " in " ++ r2.1 ++ ")" ++ r3.1, r3.2)
    | .whileStmt =>
      let r1 := renderSlot (frontSlot cs) g ind
      let r2 := renderBlockSlot false (backSlot cs) r1.2 ind
      ((if g.pretty then "while (" else "while(") ++ r1.1 ++ ")" ++ r2.1, r2.2)
    | .doWhile =>
      let r1 := renderBlockSlot true (frontSlot cs) g ind
      let cu :=
        if r1.2.sanelineno then
          match backSlot cs with
          | some c =>
            let t := renderLinenoCatchup c.linenoOf r1.2
            (t.1, t.2.1)
          | none => ("", r1.2)
        else ("", r1.2)
      let r2 := renderSlot (backSlot cs) cu.2 ind
      ("do" ++ r1.1 ++ cu.1 ++ (if g.pretty then " while (" else "while(") ++
        r2.1 ++ ")", r2.2)
termination_by 8 * sizeOf n
decreasing_by
  all_goals simp_wf
  all_goals try simp only [nkind_sizeOf]
  all_goals try omega
  all_goals
    (have h1 := slotSize_front ‹List (Option Node)›
     have h2 := slotSize_second ‹List (Option Node)›
     have h3 := slotSize_third ‹List (Option Node)›
     have h4 := slotSize_fourth ‹List (Option Node)›
     have h5 := slotSize_back ‹List (Option Node)›
     omega)

/-- A child's render through a possibly-absent slot; the source would
dereference NULL (undefined), modelled as no output. -/
def renderSlot (s : Option Node) (g : Guts) (ind : Int) : String × Guts :=
  match s with
  | some c => render c g ind
  | none => ("", g)
termination_by 8 * sizeOf s + 6
decreasing_by
  all_goals simp_wf
  all_goals omega

/-- A child's renderBlock through a possibly-absent slot; the source would
dereference NULL (undefined), modelled as no output. -/
def renderBlockSlot (must : Bool) (s : Option Node) (g : Guts) (ind : Int) :
    String × Guts :=
  match s with
  | some c => renderBlock must c g ind
  | none => ("", g)
termination_by 8 * sizeOf s + 6
decreasing_by
  all_goals simp_wf
  all_goals omega

/-- The else-branch rendering of NodeIf::render: nothing when there is no
else child; an "else"-prefixed inline render (after a line catchup in
line-fidelity mode) when the else child is itself an if; otherwise an
optional block whose text gets a separating space unless it already starts
with a brace or a space (indexing an empty block text is undefined in the
source; modelled as adding the space). -/
def renderIfElse (s : Option Node) (g : Guts) (ind : Int) : String × Guts :=
  match s with
  | none => ("", g)
  | some e =>
    let kw := if g.pretty then " else" else "else"
    if e.kindOf = .ifStmt then
      let cu :=
        if g.sanelineno then
          let t := renderLinenoCatchup e.linenoOf g
          (t.1, t.2.1)
        else ("", g)
      let r := render e cu.2 ind
      (kw ++ cu.1 ++ " " ++ r.1, r.2)
    else
      let blk := renderBlock false e g ind
      let sp :=
        match blk.1.toList with
        | [] => " "
        | c :: _ => if c = '\x7b' ∨ c = ' ' then "" else " "
      (kw ++ sp ++ blk.1, blk.2)
termination_by 8 * sizeOf s + 6
decreasing_by
  all_goals simp_wf
  all_goals omega

/-- renderStatement: expression kinds (NodeExpression::renderStatement),
the NodeStatement kinds, and NodeLabel append a ";" to their render; every
other kind (the Node default, NodeStatementList's and NodeCaseClause's
overrides) is its plain render. -/
def renderStatement (n : Node) (g : Guts) (ind : Int) : String × Guts :=
  match n with
  | .mk k p l cs =>
    if isExpression k ∨ k = .stmtWithExpr ∨ k = .varDecl ∨ k = .doWhile ∨
        k = .labelStmt then
      let r := render (.mk k p l cs) g ind
      (r.1 ++ ";", r.2)
    else render (.mk k p l cs) g ind
termination_by 8 * sizeOf n + 1
decreasing_by
  all_goals simp_wf
  all_goals try simp only [nkind_sizeOf]
  all_goals omega

/-- The body of the base Node::renderIndentedStatement: in line-fidelity
mode catch the line up, in plain pretty mode emit the newline governed by
the lineno-as-first-line-flag trick, then indent when pretty and a newline
was emitted, then renderStatement. -/
def renderIndentedBase (n : Node) (g : Guts) (ind : Int) : String × Guts :=
  if g.pretty ∨ g.sanelineno then
    let t :=
      if g.sanelineno then renderLinenoCatchup n.linenoOf g
      else if g.lineno = 2 then ("\n", g, true)
      else ("", { g with lineno := 2 }, false)
    let indent := if g.pretty ∧ t.2.2 = true then indentStr ind else ""
    let r := renderStatement n t.2.1 ind
    (t.1 ++ indent ++ r.1, r.2)
  else renderStatement n g ind
termination_by 8 * sizeOf n + 2
decreasing_by
  all_goals simp_wf
  all_goals omega

/-- renderIndentedStatement: NodeStatementList renders plainly,
NodeCaseClause (and NodeDefaultClause) drop one indentation level before
the base behavior, every other kind uses the base behavior. -/
def renderIndentedStatement (n : Node) (g : Guts) (ind : Int) : String × Guts :=
  match n with
  | .mk k p l cs =>
    match k with
    | .statementList => render (.mk .statementList p l cs) g ind
    | .caseClause => renderIndentedBase (.mk .caseClause p l cs) g (ind - 1)
    | .defaultClause => renderIndentedBase (.mk .defaultClause p l cs) g (ind - 1)
    | _ => renderIndentedBase (.mk k p l cs) g ind
termination_by 8 * sizeOf n + 3
decreasing_by
  all_goals simp_wf
  all_goals try simp only [nkind_sizeOf]
  all_goals omega

/-- The brace-wrapped branch shared by Node::renderBlock and
NodeStatementList::renderBlock: open brace (with a leading space in pretty
mode), the indented body, then — in pretty or line-fidelity mode — a
newline (by catchup in line-fidelity mode) and, when pretty and a newline
was emitted, the closing indentation, then the closing brace. -/
def braceBody (n : Node) (g : Guts) (ind : Int) : String × Guts :=
  let opener := if g.pretty then " \x7b" else "\x7b"
  let r1 := renderIndentedStatement n g (ind + 1)
  let mid :=
    if g.pretty ∨ g.sanelineno then
      let t :=
        if g.sanelineno then renderLinenoCatchup n.linenoOf r1.2
        else ("\n", r1.2, true)
      (t.1 ++ (if g.pretty ∧ t.2.2 = true then indentStr ind else ""), t.2.1)
    else ("", r1.2)
  (opener ++ r1.1 ++ mid.1 ++ "\x7d", mid.2)
termination_by 8 * sizeOf n + 4
decreasing_by
  all_goals simp_wf
  all_goals omega

/-- renderBlock: NodeEmptyExpression renders ";"; NodeStatementList
collapses to ";" when optional and empty, renders its single child's block
directly (after a line catchup) when optional, non-pretty and singleton,
and otherwise braces itself; the Node default renders the statement plainly
(after a line catchup) when optional and non-pretty and otherwise braces
itself. -/
def renderBlock (must : Bool) (n : Node) (g : Guts) (ind : Int) : String × Guts :=
  match n with
  | .mk k p l cs =>
    match k with
    | .emptyExpr => (";", g)
    | .statementList =>
      if ¬must ∧ cs.isEmpty then (";", g)
      else if ¬must ∧ ¬g.pretty ∧ cs.length = 1 then
        let cu :=
          if g.sanelineno then
            let t := renderLinenoCatchup l g
            (t.1, t.2.1)
          else ("", g)
        let r := renderBlockSlot must (frontSlot cs) cu.2 ind
        (cu.1 ++ r.1, r.2)
      else braceBody (.mk .statementList p l cs) g ind
    | _ =>
      if ¬must ∧ ¬g.pretty then
        let cu :=
          if g.sanelineno then
            let t := renderLinenoCatchup l g
            (t.1, t.2.1)
          else ("", g)
        let r := renderStatement (.mk k p l cs) cu.2 ind
        (cu.1 ++ r.1, r.2)
      else braceBody (.mk k p l cs) g ind
termination_by 8 * sizeOf n + 5
decreasing_by
  all_goals simp_wf
  all_goals try simp only [nkind_sizeOf]
  all_goals try omega
  all_goals
    (have h1 := slotSize_front ‹List (Option Node)›
     omega)

/-- NodeStatementList::render: each present child renders as an indented
statement, absent slots are skipped. -/
def renderIndentedList (cs : List (Option Node)) (g : Guts) (ind : Int) :
    String × Guts :=
  match cs with
  | [] => ("", g)
  | none :: tl => renderIndentedList tl g ind
  | some c :: tl =>
    let r1 := renderIndentedStatement c g ind
    let r2 := renderIndentedList tl r1.2 ind
    (r1.1 ++ r2.1, r2.2)
termination_by 8 * sizeOf cs + 7
decreasing_by
  all_goals simp_wf
  all_goals omega

/-- Node::renderImplodeChildren: render each present child and put the glue
between consecutive slots, present or not. -/
def renderImplode (cs : List (Option Node)) (g : Guts) (ind : Int)
    (glue : String) : String × Guts :=
  match cs with
  | [] => ("", g)
  | [none] => ("", g)
  | [some c] => render c g ind
  | none :: t :: tl =>
    let r := renderImplode (t :: tl) g ind glue
    (glue ++ r.1, r.2)
  | some c :: t :: tl =>
    let r1 := render c g ind
    let r2 := renderImplode (t :: tl) r1.2 ind glue
    (r1.1 ++ glue ++ r2.1, r2.2)
termination_by 8 * sizeOf cs + 7
decreasing_by
  all_goals simp_wf
  all_goals omega

end

/-! ## Spec-side definitions

These definitions follow the wording of the specification (not the source);
they exist to be compared against the source-derived definitions above. -/

/-- The identifier grammar as the spec words it: non-empty, not in the fixed
reserved-keyword-or-literal set (which includes true/false/null), first
character alphabetic or one of $ and _, and every later character
alphanumeric or one of $ and _. -/
def specLegalIdentifier (s : String) : Bool :=
  decide (s.toList ≠ []) && !(decide (s ∈ reservedKeywords)) &&
    (match s.toList with
     | [] => false
     | c0 :: rest =>
       (c0.isAlpha || c0 = '$' || c0 = '_') &&
         rest.all fun c => c.isAlpha || c.isDigit || c = '$' || c = '_')

/-- The natural description of what the child loop of Node::operator==
computes: the left (this) sequence must be elementwise equal to an initial
segment of the right (that) sequence; an empty left sequence matches
anything, and a left sequence longer than the right fails. -/
def childrenPrefixEq (xs ys : List (Option Node)) : Bool :=
  match xs, ys with
  | [], _ => true
  | _ :: _, [] => false
  | x :: xs', y :: ys' => optEqRev x y && childrenPrefixEq xs' ys'

/-- Structural equality lifted to reduce results (absent matches absent). -/
def optNodeEq : Option Node → Option Node → Bool
  | some a, some b => nodeEq a b
  | none, none => true
  | _, _ => false

/-! ## Utility lemmas -/

theorem childrenEq_eq_prefixEq : ∀ xs ys, childrenEq xs ys = childrenPrefixEq xs ys := by
  intro xs
  induction xs with
  | nil =>
    intro ys
    rw [childrenEq.eq_def]
    simp [childrenPrefixEq]
  | cons x xs' ihx =>
    intro ys
    match ys with
    | [] =>
      rw [childrenEq.eq_def]
      simp [childrenPrefixEq]
    | [y] =>
      cases xs' with
      | nil =>
        rw [childrenEq.eq_def]
        simp [childrenPrefixEq]
      | cons a as =>
        rw [childrenEq.eq_def]
        simp [childrenPrefixEq]
    | y :: y2 :: ys2 =>
      cases xs' with
      | nil =>
        rw [childrenEq.eq_def]
        simp [childrenPrefixEq]
      | cons a as =>
        rw [childrenEq.eq_def]
        simp only [childrenPrefixEq]
        rw [ihx (y2 :: ys2)]
        simp [childrenPrefixEq]

theorem childrenPrefixEq_refl (cs : List (Option Node))
    (h : ∀ c, some c ∈ cs → nodeEq c c = true) : childrenPrefixEq cs cs = true := by
  induction cs with
  | nil => simp [childrenPrefixEq]
  | cons x tl ih =>
    have h1 : optEqRev x x = true := by
      match x with
      | none => rw [optEqRev.eq_def]
      | some a =>
        rw [optEqRev.eq_def]
        exact h a (List.mem_cons_self _ _)
    have h2 : childrenPrefixEq tl tl = true :=
      ih fun c hc => h c (List.mem_cons_of_mem _ hc)
    simp [childrenPrefixEq, h1, h2]

theorem nodeEq_refl_aux : ∀ (N : Nat) (n : Node), sizeOf n ≤ N → nodeEq n n = true := by
  intro N
  induction N with
  | zero =>
    intro n hn
    exfalso
    obtain ⟨k, p, l, cs⟩ := n
    simp at hn
    try omega
  | succ N ih =>
    intro n hn
    obtain ⟨k, p, l, cs⟩ := n
    have hch : childrenEq cs cs = true := by
      rw [childrenEq_eq_prefixEq]
      refine childrenPrefixEq_refl cs fun c hc => ?_
      refine ih c ?_
      have := sizeOf_lt_of_memSlot hc
      have hsz : sizeOf (Node.mk k p l cs) ≤ N + 1 := hn
      simp at hsz
      omega
    cases k <;> cases p <;> simp [nodeEq.eq_def, hch]

theorem nodeEq_refl (n : Node) : nodeEq n n = true :=
  nodeEq_refl_aux (sizeOf n) n le_rfl

theorem nodeEq_kind : ∀ a b : Node, nodeEq a b = true → a.kindOf = b.kindOf := by
  intro a b h
  obtain ⟨ka, pa, la, ca⟩ := a
  obtain ⟨kb, pb, lb, cb⟩ := b
  simp only [Node.kindOf]
  cases ka <;> simp [nodeEq.eq_def] at h <;> simp [h.1]

theorem is_identifier_eq_spec (s : String) : is_identifier s = specLegalIdentifier s := by
  unfold is_identifier specLegalIdentifier is_reserved_keyword
  match h : s.toList with
  | [] => simp [h]
  | c0 :: rest =>
    simp only [h]
    by_cases hr : s ∈ reservedKeywords
    · simp [hr]
    · cases hA : c0.isAlpha <;> by_cases h4 : c0 = '$' <;> by_cases h7 : c0 = '_' <;>
        simp_all

/-! ## Reduce-pass utility lemmas -/

theorem reduceChildren_eq_map : ∀ cs : List (Option Node),
    reduceChildren cs = cs.map fun s => s.bind reduceOpt := by
  intro cs
  induction cs with
  | nil => rw [reduceChildren.eq_def]; simp
  | cons x tl ih =>
    match x with
    | none => rw [reduceChildren.eq_def]; simp [ih]
    | some c => rw [reduceChildren.eq_def]; simp [ih]

theorem frontSlot_map (f : Option Node → Option Node) (hf : f none = none)
    (cs : List (Option Node)) : frontSlot (cs.map f) = f (frontSlot cs) := by
  match cs with
  | [] => simp [frontSlot, hf]
  | x :: tl => simp [frontSlot]

theorem secondSlot_map (f : Option Node → Option Node) (hf : f none = none)
    (cs : List (Option Node)) : secondSlot (cs.map f) = f (secondSlot cs) := by
  match cs with
  | [] => simp [secondSlot, hf]
  | [x] => simp [secondSlot, hf]
  | x :: y :: tl => simp [secondSlot]

theorem thirdSlot_map (f : Option Node → Option Node) (hf : f none = none)
    (cs : List (Option Node)) : thirdSlot (cs.map f) = f (thirdSlot cs) := by
  match cs with
  | [] => simp [thirdSlot, hf]
  | [x] => simp [thirdSlot, hf]
  | [x, y] => simp [thirdSlot, hf]
  | x :: y :: z :: tl => simp [thirdSlot]

theorem backSlot_map (f : Option Node → Option Node) (hf : f none = none) :
    ∀ cs : List (Option Node), backSlot (cs.map f) = f (backSlot cs) := by
  intro cs
  match cs with
  | [] => simp [backSlot, hf]
  | [x] => simp [backSlot]
  | x :: y :: tl =>
    have ih := backSlot_map f hf (y :: tl)
    have h1 : backSlot ((x :: y :: tl).map f) = backSlot ((y :: tl).map f) := by
      simp [backSlot]
    have h2 : backSlot (x :: y :: tl) = backSlot (y :: tl) := by
      simp [backSlot]
    rw [h1, ih, h2]

theorem slotMem_front {cs : List (Option Node)} {c : Node}
    (h : frontSlot cs = some c) : some c ∈ cs := by
  match cs with
  | [] => simp [frontSlot] at h
  | x :: tl => simp only [frontSlot] at h; subst h; exact List.mem_cons_self _ _

theorem slotMem_second {cs : List (Option Node)} {c : Node}
    (h : secondSlot cs = some c) : some c ∈ cs := by
  match cs with
  | [] => simp [secondSlot] at h
  | [x] => simp [secondSlot] at h
  | x :: y :: tl =>
    simp only [secondSlot] at h
    subst h
    exact List.mem_cons_of_mem _ (List.mem_cons_self _ _)

theorem slotMem_third {cs : List (Option Node)} {c : Node}
    (h : thirdSlot cs = some c) : some c ∈ cs := by
  match cs with
  | [] => simp [thirdSlot] at h
  | [x] => simp [thirdSlot] at h
  | [x, y] => simp [thirdSlot] at h
  | x :: y :: z :: tl =>
    simp only [thirdSlot] at h
    subst h
    exact List.mem_cons_of_mem _ (List.mem_cons_of_mem _ (List.mem_cons_self _ _))

theorem slotMem_back {cs : List (Option Node)} {c : Node}
    (h : backSlot cs = some c) : some c ∈ cs := by
  unfold backSlot at h
  match h2 : cs.getLast? with
  | none => rw [h2] at h; simp at h
  | some x =>
    rw [h2] at h
    simp at h
    subst h
    rcases List.mem_getLast?_eq_getLast (by rw [h2]; exact Option.mem_def.mpr rfl) with ⟨hne, hx⟩
    rw [hx]
    exact List.getLast_mem hne

theorem mem_reduceChildren {cs : List (Option Node)} {c : Node}
    (h : some c ∈ reduceChildren cs) :
    ∃ c₀, some c₀ ∈ cs ∧ reduceOpt c₀ = some c := by
  rw [reduceChildren_eq_map] at h
  rcases List.mem_map.mp h with ⟨s, hs, hfs⟩
  match s with
  | none => simp at hfs
  | some c₀ => exact ⟨c₀, hs, by simpa using hfs⟩

theorem reduceChildren_self (cs : List (Option Node))
    (h : ∀ c, some c ∈ cs → reduceOpt c = some c) : reduceChildren cs = cs := by
  rw [reduceChildren_eq_map]
  induction cs with
  | nil => simp
  | cons x tl ih =>
    have htl : tl.map (fun s => s.bind reduceOpt) = tl :=
      ih fun c hc => h c (List.mem_cons_of_mem _ hc)
    match x with
    | none => simp [htl]
    | some c => simp [htl, h c (List.mem_cons_self _ _)]

theorem compareN_isExpression {n : Node} {b : Bool}
    (h : compareN n b = true) : isExpression n.kindOf = true := by
  obtain ⟨k, p, l, cs⟩ := n
  rw [compareN.eq_def] at h
  cases k <;> cases p <;> simp_all [isExpression, Node.kindOf]

theorem compareN_not_both_aux : ∀ (N : Nat) (n : Node), sizeOf n ≤ N →
    ∀ b : Bool, compareN n b = true → compareN n (!b) = false := by
  intro N
  induction N with
  | zero =>
    intro n hn
    exfalso
    obtain ⟨k, p, l, cs⟩ := n
    simp at hn
    try omega
  | succ N ih =>
    intro n hn b h
    rw [compareN.eq_def] at h ⊢
    split at h
    · cases b <;> simp_all
    · cases b <;> simp_all
    · rename_i p l c tl
      have hrec := ih c (by simp at hn; omega) b h
      simp [hrec]
    · exact absurd h (by simp)
    · exact absurd h (by simp)

theorem compareN_reduce_aux : ∀ (N : Nat) (n : Node), sizeOf n ≤ N → ∀ b : Bool,
    compareN n b = true → ∃ n', reduceOpt n = some n' ∧ compareN n' b = true := by
  intro N
  induction N with
  | zero =>
    intro n hn
    exfalso
    obtain ⟨k, p, l, cs⟩ := n
    simp at hn
    try omega
  | succ N ih =>
    intro n hn b h
    rw [compareN.eq_def] at h
    split at h
    next v l cs =>
      refine ⟨.mk .numericLit (.numP v) l (reduceChildren cs), ?_, ?_⟩
      · rw [reduceOpt.eq_def]; simp [postReduce]
      · rw [compareN.eq_def]; simpa using h
    next v l cs =>
      refine ⟨.mk .booleanLit (.boolP v) l (reduceChildren cs), ?_, ?_⟩
      · rw [reduceOpt.eq_def]; simp [postReduce]
      · rw [compareN.eq_def]; simpa using h
    next p l c tl =>
      have hc : ∃ c', reduceOpt c = some c' ∧ compareN c' b = true := by
        refine ih c ?_ b h
        simp at hn
        omega
      rcases hc with ⟨c', hc1, hc2⟩
      refine ⟨.mk .parenthetical p l (reduceChildren (some c :: tl)), ?_, ?_⟩
      · rw [reduceOpt.eq_def]; simp [postReduce]
      · rw [reduceChildren.eq_def]
        rw [compareN.eq_def]
        simp [hc1, hc2]
    next => simp at h
    next => simp at h

/-- Node::render(int opts): build the context from the option flags with
the current line starting at 1 and render at depth 0; the result is the
concatenated rope. -/
def renderTop (n : Node) (pretty sanelineno : Bool) : String :=
  (render n { pretty := pretty, sanelineno := sanelineno, lineno := 1 } 0).1

theorem compareN_not_both {n : Node} (h : compareN n true = true) :
    compareN n false = false :=
  compareN_not_both_aux (sizeOf n) n le_rfl true h

theorem compareN_not_both' {n : Node} (h : compareN n false = true) :
    compareN n true = false :=
  compareN_not_both_aux (sizeOf n) n le_rfl false h

theorem compareN_reduce {n : Node} {b : Bool} (h : compareN n b = true) :
    ∃ n', reduceOpt n = some n' ∧ compareN n' b = true :=
  compareN_reduce_aux (sizeOf n) n le_rfl b h

theorem reduceOpt_mk (k : NKind) (p : NPayload) (l : Nat) (cs : List (Option Node))
    (hk : k ≠ .unaryExpr) :
    reduceOpt (.mk k p l cs) = postReduce k p l (reduceChildren cs) := by
  rw [reduceOpt.eq_def]
  simp [hk]

theorem reduceOpt_unary (p : NPayload) (l : Nat) (cs : List (Option Node)) :
    reduceOpt (.mk .unaryExpr p l cs) = unaryStep p l cs := by
  rw [reduceOpt.eq_def]
  simp

/-! ## Claims -/

/-- C8: In line-fidelity mode, the catchup step before emitting a node with
known source line L emits exactly (L - currentLine) newline characters and
sets the context's current line counter to L when L is greater than the
current line; if the node's line is 0 or does not exceed the current
counter, it emits nothing and the counter is unchanged. -/
theorem c8_lineno_catchup (L cur : Nat) (p s : Bool) :
    (L > cur →
      renderLinenoCatchup L { pretty := p, sanelineno := s, lineno := cur } =
        (String.mk (List.replicate (L - cur) '\n'),
         { pretty := p, sanelineno := s, lineno := L }, true)) ∧
    (L = 0 ∨ L ≤ cur →
      renderLinenoCatchup L { pretty := p, sanelineno := s, lineno := cur } =
        ("", { pretty := p, sanelineno := s, lineno := cur }, false)) := by
  constructor
  · intro h
    have h0 : ¬(L = 0 ∨ cur ≥ L) := by
      push_neg
      omega
    simp [renderLinenoCatchup, h0]
  · intro h
    have h1 : (L = 0 ∨ cur ≥ L) := by
      rcases h with h | h
      · exact Or.inl h
      · exact Or.inr h
    simp [renderLinenoCatchup, h1]

theorem c8_lineno_catchup_witness :
    renderLinenoCatchup 7 { pretty := false, sanelineno := true, lineno := 3 } =
      ("\n\n\n\n", { pretty := false, sanelineno := true, lineno := 7 }, true) ∧
    renderLinenoCatchup 0 { pretty := false, sanelineno := true, lineno := 3 } =
      ("", { pretty := false, sanelineno := true, lineno := 3 }, false) := by
  constructor
  · rw [(c8_lineno_catchup 7 3 false true).1 (by omega)]
    rfl
  · exact (c8_lineno_catchup 0 3 false true).2 (Or.inl rfl)

/-- C10: Structural equality of string literals compares only the stored
value text, ignoring the wasQuotedInSource flag (and children and line
numbers); rendering emits the value verbatim when the flag is set and wraps
it in double quotes otherwise; and hence two structurally equal string
literals (same value, different flags) render differently. -/
theorem c10_string_literal_eq_render :
    (∀ (v1 : String) (q1 : Bool) (l1 : Nat) (c1 : List (Option Node))
       (v2 : String) (q2 : Bool) (l2 : Nat) (c2 : List (Option Node)),
      nodeEq (.mk .stringLit (.strP v1 q1) l1 c1) (.mk .stringLit (.strP v2 q2) l2 c2)
        = decide (v1 = v2)) ∧
    (∀ (v : String) (l : Nat) (cs : List (Option Node)) (g : Guts) (ind : Int),
      render (.mk .stringLit (.strP v true) l cs) g ind = (v, g)) ∧
    (∀ (v : String) (l : Nat) (cs : List (Option Node)) (g : Guts) (ind : Int),
      render (.mk .stringLit (.strP v false) l cs) g ind = ("\"" ++ v ++ "\"", g)) ∧
    (nodeEq (.mk .stringLit (.strP "a" true) 0 [])
        (.mk .stringLit (.strP "a" false) 0 []) = true ∧
     renderTop (.mk .stringLit (.strP "a" true) 0 []) false false ≠
       renderTop (.mk .stringLit (.strP "a" false) 0 []) false false) := by
  refine ⟨?_, ?_, ?_, ?_, ?_⟩
  · intro v1 q1 l1 c1 v2 q2 l2 c2
    rw [nodeEq.eq_def]
    simp
  · intro v l cs g ind
    rw [render.eq_def]
    simp
  · intro v l cs g ind
    rw [render.eq_def]
    simp
  · rw [nodeEq.eq_def]
    simp
  · simp [renderTop, render.eq_def]

/-- C9: Cloning does not preserve source line numbers: for every node kind
except the program root (whose line is fixed at 1) the clone's lineno is
the default 0 regardless of the original's, cloning a var-declaration
additionally resets its for-iterator flag, and hence a clone, though
structurally equal to the original, can render differently when line
preservation is on. -/
theorem c9_clone_lineno :
    (∀ n : Node, (cloneNode n).linenoOf = if n.kindOf = .program then 1 else 0) ∧
    (∀ (b : Bool) (l : Nat) (cs : List (Option Node)),
      cloneNode (.mk .varDecl (.iterP b) l cs) =
        .mk .varDecl (.iterP false) 0 (cloneChildren cs)) ∧
    (nodeEq
        (.mk .program .noPayload 1
          [some (.mk .statementList .noPayload 0 [some (.mk .nullLit .noPayload 3 [])])])
        (cloneNode
          (.mk .program .noPayload 1
            [some (.mk .statementList .noPayload 0 [some (.mk .nullLit .noPayload 3 [])])]))
      = true ∧
     renderTop
        (.mk .program .noPayload 1
          [some (.mk .statementList .noPayload 0 [some (.mk .nullLit .noPayload 3 [])])])
        false true ≠
       renderTop
        (cloneNode
          (.mk .program .noPayload 1
            [some (.mk .statementList .noPayload 0 [some (.mk .nullLit .noPayload 3 [])])]))
        false true) := by
  refine ⟨?_, ?_, ?_, ?_⟩
  · intro n
    obtain ⟨k, p, l, cs⟩ := n
    rw [cloneNode.eq_def]
    cases k <;> simp [Node.linenoOf, Node.kindOf]
  · intro b l cs
    rw [cloneNode.eq_def]
  · simp only [cloneNode.eq_def, cloneChildren.eq_def]
    simp [nodeEq.eq_def, childrenEq.eq_def, optEqRev.eq_def]
  · simp only [cloneNode.eq_def, cloneChildren.eq_def]
    simp [renderTop, render.eq_def, renderSlot.eq_def, renderIndentedList.eq_def,
      renderIndentedStatement.eq_def, renderIndentedBase.eq_def, renderStatement.eq_def,
      renderLinenoCatchup, frontSlot, isExpression, Node.linenoOf, Node.kindOf, indentStr]


/-- C1 counterexample: the claim says an OR whose right operand is not a
constant must stay unfolded even when the left operand is statically true;
but reducing (true || x), whose right operand is a non-constant identifier,
folds the node to the left boolean literal. -/
theorem c1_counterexample :
    reduceOpt (.mk .operatorExpr (.opP .orOp) 0
        [some (.mk .booleanLit (.boolP true) 0 []),
         some (.mk .identifier (.idP "x") 0 [])]) =
      some (.mk .booleanLit (.boolP true) 0 []) ∧
    reduceOpt (.mk .operatorExpr (.opP .orOp) 0
        [some (.mk .booleanLit (.boolP true) 0 []),
         some (.mk .identifier (.idP "x") 0 [])]) ≠
      some (.mk .operatorExpr (.opP .orOp) 0
        [some (.mk .booleanLit (.boolP true) 0 []),
         some (.mk .identifier (.idP "x") 0 [])]) := by
  have h : reduceOpt (.mk .operatorExpr (.opP .orOp) 0
      [some (.mk .booleanLit (.boolP true) 0 []),
       some (.mk .identifier (.idP "x") 0 [])]) =
      some (.mk .booleanLit (.boolP true) 0 []) := by
    simp [reduceOpt.eq_def, reduceChildren.eq_def, postReduce, opPost, opCompareSlot,
      frontSlot, backSlot, secondSlot, compareN.eq_def, isExpression, Node.kindOf,
      unaryStep]
  refine ⟨h, ?_⟩
  rw [h]
  simp

/-- C1 (amended): reducing an OR whose left operand is statically true
yields the left operand's reduction alone, whatever the right operand is;
when the left is statically false, a statically-true right yields the right
operand's reduction alone, a statically-false right yields a fresh boolean
false literal (so false || false reduces to boolean false, and
true || false reduces to the left true literal by the first rule), and a
right operand that reduces to a non-constant leaves the OR node with its
reduced children. -/
theorem c1_or_folding_amended :
    (∀ (L : Nat) (l r : Node), compareN l true = true →
      reduceOpt (.mk .operatorExpr (.opP .orOp) L [some l, some r]) = reduceOpt l) ∧
    (∀ (L : Nat) (l r : Node), compareN l false = true → compareN r true = true →
      reduceOpt (.mk .operatorExpr (.opP .orOp) L [some l, some r]) = reduceOpt r) ∧
    (∀ (L : Nat) (l r : Node), compareN l false = true → compareN r false = true →
      reduceOpt (.mk .operatorExpr (.opP .orOp) L [some l, some r]) =
        some (.mk .booleanLit (.boolP false) 0 [])) ∧
    (∀ (L : Nat) (l r l' r' : Node), compareN l false = true →
      reduceOpt l = some l' → reduceOpt r = some r' →
      compareN r' true = false → compareN r' false = false →
      reduceOpt (.mk .operatorExpr (.opP .orOp) L [some l, some r]) =
        some (.mk .operatorExpr (.opP .orOp) L [some l', some r'])) := by
  refine ⟨?_, ?_, ?_, ?_⟩
  · intro L l r h
    rcases compareN_reduce h with ⟨l', hl1, hl2⟩
    have hexp := compareN_isExpression hl2
    rw [reduceOpt_mk _ _ _ _ (by simp)]
    simp only [postReduce]
    rw [reduceChildren_eq_map]
    simp only [List.map]
    simp [opPost, opCompareSlot, frontSlot, hl1, hl2, hexp]
  · intro L l r hl hr
    rcases compareN_reduce hl with ⟨l', hl1, hl2⟩
    have hlexp := compareN_isExpression hl2
    have hlneg : compareN l' true = false := compareN_not_both' hl2
    rcases compareN_reduce hr with ⟨r', hr1, hr2⟩
    have hrexp := compareN_isExpression hr2
    rw [reduceOpt_mk _ _ _ _ (by simp)]
    simp only [postReduce]
    rw [reduceChildren_eq_map]
    simp [opPost, opCompareSlot, frontSlot, backSlot, secondSlot,
      hl1, hl2, hlexp, hlneg, hr1, hr2, hrexp]
  · intro L l r hl hr
    rcases compareN_reduce hl with ⟨l', hl1, hl2⟩
    have hlexp := compareN_isExpression hl2
    have hlneg : compareN l' true = false := compareN_not_both' hl2
    rcases compareN_reduce hr with ⟨r', hr1, hr2⟩
    have hrexp := compareN_isExpression hr2
    have hrneg : compareN r' true = false := compareN_not_both' hr2
    rw [reduceOpt_mk _ _ _ _ (by simp)]
    simp only [postReduce]
    rw [reduceChildren_eq_map]
    simp [opPost, opCompareSlot, frontSlot, backSlot, secondSlot,
      hl1, hl2, hlexp, hlneg, hr1, hr2, hrexp, hrneg]
  · intro L l r l' r' hl hl1 hr1 hrt hrf
    have hl2 : compareN l' false = true := by
      rcases compareN_reduce hl with ⟨l'', hl1', hl2'⟩
      rw [hl1] at hl1'
      injection hl1' with he
      rw [he]
      exact hl2'
    have hlexp := compareN_isExpression hl2
    have hlneg : compareN l' true = false := compareN_not_both' hl2
    rw [reduceOpt_mk _ _ _ _ (by simp)]
    simp only [postReduce]
    rw [reduceChildren_eq_map]
    simp [opPost, opCompareSlot, frontSlot, backSlot, secondSlot,
      hl1, hl2, hlexp, hlneg, hr1, hrt, hrf]

theorem c1_or_folding_amended_witness :
    reduceOpt (.mk .operatorExpr (.opP .orOp) 0
        [some (.mk .booleanLit (.boolP true) 0 []),
         some (.mk .booleanLit (.boolP false) 0 [])]) =
      reduceOpt (.mk .booleanLit (.boolP true) 0 []) :=
  c1_or_folding_amended.1 0 _ _ (by rw [compareN.eq_def]; simp)

/-- C3: reducing a logical AND whose left operand is statically false
yields a fresh boolean false literal with the right subtree discarded;
a statically true left with a statically false right also yields a boolean
false literal; and a statically true left with a right that does not reduce
to a statically false expression yields the right operand's reduction
alone. -/
theorem c3_and_folding :
    (∀ (L : Nat) (l r : Node), compareN l false = true →
      reduceOpt (.mk .operatorExpr (.opP .andOp) L [some l, some r]) =
        some (.mk .booleanLit (.boolP false) 0 [])) ∧
    (∀ (L : Nat) (l r : Node), compareN l true = true → compareN r false = true →
      reduceOpt (.mk .operatorExpr (.opP .andOp) L [some l, some r]) =
        some (.mk .booleanLit (.boolP false) 0 [])) ∧
    (∀ (L : Nat) (l r r' : Node), compareN l true = true →
      reduceOpt r = some r' → compareN r' false = false →
      reduceOpt (.mk .operatorExpr (.opP .andOp) L [some l, some r]) = some r') := by
  refine ⟨?_, ?_, ?_⟩
  · intro L l r h
    rcases compareN_reduce h with ⟨l', hl1, hl2⟩
    have hexp := compareN_isExpression hl2
    rw [reduceOpt_mk _ _ _ _ (by simp)]
    simp only [postReduce]
    rw [reduceChildren_eq_map]
    simp [opPost, opCompareSlot, frontSlot, hl1, hl2, hexp]
  · intro L l r hl hr
    rcases compareN_reduce hl with ⟨l', hl1, hl2⟩
    have hlexp := compareN_isExpression hl2
    have hlneg : compareN l' false = false := compareN_not_both hl2
    rcases compareN_reduce hr with ⟨r', hr1, hr2⟩
    have hrexp := compareN_isExpression hr2
    rw [reduceOpt_mk _ _ _ _ (by simp)]
    simp only [postReduce]
    rw [reduceChildren_eq_map]
    simp [opPost, opCompareSlot, frontSlot, backSlot, secondSlot,
      hl1, hl2, hlexp, hlneg, hr1, hr2, hrexp]
  · intro L l r r' hl hr1 hrf
    rcases compareN_reduce hl with ⟨l', hl1, hl2⟩
    have hlexp := compareN_isExpression hl2
    have hlneg : compareN l' false = false := compareN_not_both hl2
    rw [reduceOpt_mk _ _ _ _ (by simp)]
    simp only [postReduce]
    rw [reduceChildren_eq_map]
    simp [opPost, opCompareSlot, frontSlot, backSlot, secondSlot,
      hl1, hl2, hlexp, hlneg, hr1, hrf]

theorem c3_and_folding_witness :
    reduceOpt (.mk .operatorExpr (.opP .andOp) 0
        [some (.mk .booleanLit (.boolP false) 0 []),
         some (.mk .identifier (.idP "anything") 0 [])]) =
      some (.mk .booleanLit (.boolP false) 0 []) :=
  c3_and_folding.1 0 _ _ (by rw [compareN.eq_def]; simp)

/-- C4: reducing a conditional whose test is statically true returns the
consequent subtree's reduction; one whose test is statically false returns
the alternate subtree's reduction; and when the test reduces to something
neither statically true nor statically false, the result is the conditional
node itself with its reduced children. -/
theorem c4_conditional_reduce :
    (∀ (pl : NPayload) (L : Nat) (t b c : Node), compareN t true = true →
      reduceOpt (.mk .conditionalExpr pl L [some t, some b, some c]) = reduceOpt b) ∧
    (∀ (pl : NPayload) (L : Nat) (t b c : Node), compareN t false = true →
      reduceOpt (.mk .conditionalExpr pl L [some t, some b, some c]) = reduceOpt c) ∧
    (∀ (pl : NPayload) (L : Nat) (t b c t' : Node), reduceOpt t = some t' →
      compareN t' true = false → compareN t' false = false →
      reduceOpt (.mk .conditionalExpr pl L [some t, some b, some c]) =
        some (.mk .conditionalExpr pl L [some t', reduceOpt b, reduceOpt c])) := by
  refine ⟨?_, ?_, ?_⟩
  · intro pl L t b c h
    rcases compareN_reduce h with ⟨t', ht1, ht2⟩
    rw [reduceOpt_mk _ _ _ _ (by simp)]
    simp only [postReduce]
    rw [reduceChildren_eq_map]
    simp [condPost, condCompareSlot, frontSlot, secondSlot, ht1, ht2]
  · intro pl L t b c h
    rcases compareN_reduce h with ⟨t', ht1, ht2⟩
    have htneg : compareN t' true = false := compareN_not_both' ht2
    rw [reduceOpt_mk _ _ _ _ (by simp)]
    simp only [postReduce]
    rw [reduceChildren_eq_map]
    simp [condPost, condCompareSlot, frontSlot, secondSlot, thirdSlot, ht1, ht2, htneg]
  · intro pl L t b c t' ht1 htt htf
    rw [reduceOpt_mk _ _ _ _ (by simp)]
    simp only [postReduce]
    rw [reduceChildren_eq_map]
    simp [condPost, condCompareSlot, frontSlot, secondSlot, thirdSlot, ht1, htt, htf]

theorem c4_conditional_reduce_witness :
    reduceOpt (.mk .conditionalExpr .noPayload 0
        [some (.mk .booleanLit (.boolP true) 0 []),
         some (.mk .identifier (.idP "a") 0 []),
         some (.mk .identifier (.idP "b") 0 [])]) =
      reduceOpt (.mk .identifier (.idP "a") 0 []) :=
  c4_conditional_reduce.1 .noPayload 0 _ _ _ (by rw [compareN.eq_def]; simp)


/-- C2 counterexample: the claim says any child-sequence length mismatch —
in either direction, including empty versus non-empty — makes
structuralEquals false, and that it is symmetric; but a program node with
no children compares equal to a program node with one child, while the
reversed comparison is false. -/
theorem c2_counterexample :
    nodeEq (.mk .program .noPayload 1 [])
      (.mk .program .noPayload 1 [some (.mk .booleanLit (.boolP true) 0 [])]) = true ∧
    nodeEq (.mk .program .noPayload 1 [some (.mk .booleanLit (.boolP true) 0 [])])
      (.mk .program .noPayload 1 []) = false := by
  constructor
  · rw [nodeEq.eq_def]
    simp
    rw [childrenEq.eq_def]
  · rw [nodeEq.eq_def]
    simp
    rw [childrenEq.eq_def]

/-- C2 (amended): structuralEquals returns true only when both nodes have
the same concrete kind; it is reflexive and kind-sensitive (a numeric
literal 1 and a string literal "1" are never equal, in either order), but
it is not symmetric and it tolerates extra children on the right: the child
loop accepts exactly when the left node's child sequence is an elementwise
structurally-equal initial segment of the right node's (an empty left
sequence matches anything), and fails when the left sequence is strictly
longer than the right. -/
theorem c2_structural_equality_amended :
    (∀ a b : Node, nodeEq a b = true → a.kindOf = b.kindOf) ∧
    (∀ n : Node, nodeEq n n = true) ∧
    (∀ xs ys : List (Option Node), childrenEq xs ys = childrenPrefixEq xs ys) ∧
    (∀ (l1 : Nat) (c1 : List (Option Node)) (l2 : Nat) (c2 : List (Option Node)) (q : Bool),
      nodeEq (.mk .numericLit (.numP 1) l1 c1) (.mk .stringLit (.strP "1" q) l2 c2) = false ∧
      nodeEq (.mk .stringLit (.strP "1" q) l2 c2) (.mk .numericLit (.numP 1) l1 c1) = false) ∧
    (nodeEq (.mk .statementList .noPayload 0 [some (.mk .nullLit .noPayload 0 [])])
        (.mk .statementList .noPayload 0
          [some (.mk .nullLit .noPayload 0 []), some (.mk .thisExpr .noPayload 0 [])]) = true ∧
     nodeEq (.mk .statementList .noPayload 0
          [some (.mk .nullLit .noPayload 0 []), some (.mk .thisExpr .noPayload 0 [])])
        (.mk .statementList .noPayload 0 [some (.mk .nullLit .noPayload 0 [])]) = false) := by
  refine ⟨nodeEq_kind, nodeEq_refl, childrenEq_eq_prefixEq, ?_, ?_, ?_⟩
  · intro l1 c1 l2 c2 q
    constructor
    · rw [nodeEq.eq_def]
      simp
    · rw [nodeEq.eq_def]
      simp
  · simp [nodeEq.eq_def, childrenEq.eq_def, optEqRev.eq_def]
  · simp [nodeEq.eq_def, childrenEq.eq_def, optEqRev.eq_def]

theorem c2_structural_equality_amended_witness :
    (Node.mk .program .noPayload 1 []).kindOf =
      (Node.mk .program .noPayload 1
        [some (.mk .booleanLit (.boolP true) 0 [])]).kindOf :=
  c2_structural_equality_amended.1 _ _
    (by rw [nodeEq.eq_def]; simp; rw [childrenEq.eq_def])

/-- C7: reducing a dynamic member access whose subscript is a string
literal rewrites it to a static dotted member access carrying an identifier
with the literal's unquoted value exactly when that value is a legal
identifier — non-empty, not in the fixed reserved-keyword-or-literal set
(which includes true/false/null), first character alphabetic or one of $
and _, and every later character alphanumeric or one of $ and _ (the
grammar the shared classifier is here proved to implement) — and leaves the
node unchanged (up to child reduction) otherwise. -/
theorem c7_dynamic_member_rewrite :
    (∀ s : String, is_identifier s = specLegalIdentifier s) ∧
    (∀ (pl : NPayload) (L : Nat) (obj obj' : Node) (v : String) (q : Bool) (l2 : Nat),
      reduceOpt obj = some obj' →
      is_identifier (unquoted_value v q) = true →
      reduceOpt (.mk .dynamicMember pl L
          [some obj, some (.mk .stringLit (.strP v q) l2 [])]) =
        some (.mk .staticMember .noPayload L
          [some obj', some (.mk .identifier (.idP (unquoted_value v q)) l2 [])])) ∧
    (∀ (pl : NPayload) (L : Nat) (obj obj' : Node) (v : String) (q : Bool) (l2 : Nat),
      reduceOpt obj = some obj' →
      is_identifier (unquoted_value v q) = false →
      reduceOpt (.mk .dynamicMember pl L
          [some obj, some (.mk .stringLit (.strP v q) l2 [])]) =
        some (.mk .dynamicMember pl L
          [some obj', some (.mk .stringLit (.strP v q) l2 [])])) := by
  have hlit : ∀ (v : String) (q : Bool) (l2 : Nat),
      reduceOpt (.mk .stringLit (.strP v q) l2 []) =
        some (.mk .stringLit (.strP v q) l2 []) := by
    intro v q l2
    rw [reduceOpt_mk _ _ _ _ (by simp)]
    rw [reduceChildren.eq_def]
    simp [postReduce]
  refine ⟨is_identifier_eq_spec, ?_, ?_⟩
  · intro pl L obj obj' v q l2 hobj hid
    rw [reduceOpt_mk _ _ _ _ (by simp)]
    simp only [postReduce]
    rw [reduceChildren_eq_map]
    simp [dynPost, frontSlot, backSlot, hobj, hlit, hid]
  · intro pl L obj obj' v q l2 hobj hid
    rw [reduceOpt_mk _ _ _ _ (by simp)]
    simp only [postReduce]
    rw [reduceChildren_eq_map]
    simp [dynPost, frontSlot, backSlot, hobj, hlit, hid]

theorem c7_dynamic_member_rewrite_witness :
    reduceOpt (.mk .dynamicMember .noPayload 0
        [some (.mk .identifier (.idP "obj") 0 []),
         some (.mk .stringLit (.strP "validName" false) 0 [])]) =
      some (.mk .staticMember .noPayload 0
        [some (.mk .identifier (.idP "obj") 0 []),
         some (.mk .identifier (.idP "validName") 0 [])]) :=
  c7_dynamic_member_rewrite.2.1 .noPayload 0 _ _ "validName" false 0
    (by rw [reduceOpt_mk _ _ _ _ (by simp)]; rw [reduceChildren.eq_def]; simp [postReduce])
    (by decide)


theorem compareN_paren_cons (p : NPayload) (l : Nat) (c : Node)
    (tl : List (Option Node)) (b : Bool) :
    compareN (.mk .parenthetical p l (some c :: tl)) b = compareN c b := by
  rw [compareN.eq_def]

/-- C5: reducing an if-statement follows the source's rules in order: a
statically true test yields the if-branch slot's reduction; a statically
false test yields the else slot's reduction, or removes the node entirely
when there is no else; otherwise (test not statically decidable, stated
here on already-reduced children) an else branch with no children is
dropped; if the if-branch also has no children the node collapses to its
test expression; and if only the if-branch is empty while a non-empty else
remains, the test is wrapped in a parenthesized logical negation (already
reduced, which leaves the fresh negation node itself here since the test is
not statically decidable) and the branches are swapped. -/
theorem c5_if_reduce :
    (∀ (pl : NPayload) (L : Nat) (t b : Node) (e : Option Node),
      compareN t true = true →
      reduceOpt (.mk .ifStmt pl L [some t, some b, e]) = reduceOpt b) ∧
    (∀ (pl : NPayload) (L : Nat) (t b : Node) (e : Option Node),
      compareN t false = true →
      reduceOpt (.mk .ifStmt pl L [some t, some b, e]) = e.bind reduceOpt) ∧
    (∀ (pl : NPayload) (L : Nat) (t b x : Node),
      reduceOpt t = some t → compareN t true = false → compareN t false = false →
      reduceOpt b = some b → b.childrenOf.isEmpty = false →
      reduceOpt x = some x → x.childrenOf.isEmpty = true →
      reduceOpt (.mk .ifStmt pl L [some t, some b, some x]) =
        some (.mk .ifStmt pl L [some t, some b, none])) ∧
    (∀ (pl : NPayload) (L : Nat) (t b : Node),
      reduceOpt t = some t → compareN t true = false → compareN t false = false →
      reduceOpt b = some b → b.childrenOf.isEmpty = true →
      reduceOpt (.mk .ifStmt pl L [some t, some b, none]) = some t) ∧
    (∀ (pl : NPayload) (L : Nat) (t b x : Node),
      reduceOpt t = some t → compareN t true = false → compareN t false = false →
      reduceOpt b = some b → b.childrenOf.isEmpty = true →
      reduceOpt x = some x → x.childrenOf.isEmpty = true →
      reduceOpt (.mk .ifStmt pl L [some t, some b, some x]) = some t) ∧
    (∀ (pl : NPayload) (L : Nat) (t b x : Node),
      reduceOpt t = some t → compareN t true = false → compareN t false = false →
      reduceOpt b = some b → b.childrenOf.isEmpty = true →
      reduceOpt x = some x → x.childrenOf.isEmpty = false →
      reduceOpt (.mk .ifStmt pl L [some t, some b, some x]) =
        some (.mk .ifStmt pl L
          [some (.mk .unaryExpr (.unP .notUnary) t.linenoOf
             [some (.mk .parenthetical .noPayload t.linenoOf [some t])]),
           some x, none])) := by
  refine ⟨?_, ?_, ?_, ?_, ?_, ?_⟩
  · intro pl L t b e h
    rcases compareN_reduce h with ⟨t', ht1, ht2⟩
    rw [reduceOpt_mk _ _ _ _ (by simp)]
    simp only [postReduce]
    rw [reduceChildren_eq_map]
    simp [ifPost, condCompareSlot, frontSlot, secondSlot, ht1, ht2]
  · intro pl L t b e h
    rcases compareN_reduce h with ⟨t', ht1, ht2⟩
    have htneg : compareN t' true = false := compareN_not_both' ht2
    rw [reduceOpt_mk _ _ _ _ (by simp)]
    simp only [postReduce]
    rw [reduceChildren_eq_map]
    simp [ifPost, condCompareSlot, frontSlot, secondSlot, thirdSlot, ht1, ht2, htneg]
  · intro pl L t b x ht htt htf hb hbne hx hxe
    rw [reduceOpt_mk _ _ _ _ (by simp)]
    simp only [postReduce]
    rw [reduceChildren_eq_map]
    simp [ifPost, condCompareSlot, frontSlot, secondSlot, thirdSlot,
      emptyChildrenUB, ht, htt, htf, hb, hbne, hx, hxe]
  · intro pl L t b ht htt htf hb hbe
    rw [reduceOpt_mk _ _ _ _ (by simp)]
    simp only [postReduce]
    rw [reduceChildren_eq_map]
    simp [ifPost, condCompareSlot, frontSlot, secondSlot, thirdSlot,
      emptyChildrenUB, ht, htt, htf, hb, hbe]
  · intro pl L t b x ht htt htf hb hbe hx hxe
    rw [reduceOpt_mk _ _ _ _ (by simp)]
    simp only [postReduce]
    rw [reduceChildren_eq_map]
    simp [ifPost, condCompareSlot, frontSlot, secondSlot, thirdSlot,
      emptyChildrenUB, ht, htt, htf, hb, hbe, hx, hxe]
  · intro pl L t b x ht htt htf hb hbe hx hxne
    rw [reduceOpt_mk _ _ _ _ (by simp)]
    simp only [postReduce]
    rw [reduceChildren_eq_map]
    simp [ifPost, condCompareSlot, frontSlot, secondSlot, thirdSlot,
      emptyChildrenUB, ht, htt, htf, hb, hbe, hx, hxne,
      unaryStep, isExpression, Node.kindOf, compareN_paren_cons]

theorem c5_if_reduce_witness :
    reduceOpt (.mk .ifStmt .noPayload 0
        [some (.mk .booleanLit (.boolP true) 0 []),
         some (.mk .statementList .noPayload 0 [some (.mk .identifier (.idP "y") 0 [])]),
         none]) =
      reduceOpt (.mk .statementList .noPayload 0 [some (.mk .identifier (.idP "y") 0 [])]) :=
  c5_if_reduce.1 .noPayload 0 _ _ none (by rw [compareN.eq_def]; simp)

/-! ## Idempotence of the reduce pass (groundwork for C6) -/

theorem mem_filterMap_slKeep {cs : List (Option Node)} {c : Node}
    (h : some c ∈ cs.filterMap slKeep) : some c ∈ cs := by
  rcases List.mem_filterMap.mp h with ⟨s, hs, hks⟩
  match s with
  | none => simp [slKeep] at hks
  | some t =>
    simp only [slKeep] at hks
    split at hks
    · simp at hks
    · simp at hks
      rw [hks] at hs
      exact hs

theorem filterMap_slKeep_idem (cs : List (Option Node)) :
    (cs.filterMap slKeep).filterMap slKeep = cs.filterMap slKeep := by
  induction cs with
  | nil => simp
  | cons x tl ih =>
    match x with
    | none => simp [List.filterMap_cons, slKeep, ih]
    | some t =>
      by_cases hg : (isExpression t.kindOf && (compareN t true || compareN t false)) = true
      · have h2 : slKeep (some t) = none := by simp [slKeep, hg]
        simp [List.filterMap_cons, h2, ih]
      · have h2 : slKeep (some t) = some (some t) := by simp [slKeep, hg]
        simp [List.filterMap_cons, h2, ih]

theorem boolLit_fixed (pp : NPayload) (l : Nat) :
    reduceOpt (.mk .booleanLit pp l []) = some (.mk .booleanLit pp l []) := by
  rw [reduceOpt_mk _ _ _ _ (by simp)]
  rw [reduceChildren.eq_def]
  simp [postReduce]

theorem identifier_fixed (pp : NPayload) (l : Nat) :
    reduceOpt (.mk .identifier pp l []) = some (.mk .identifier pp l []) := by
  rw [reduceOpt_mk _ _ _ _ (by simp)]
  rw [reduceChildren.eq_def]
  simp [postReduce]

/-- A node of a kind with no reduce override, whose children are all fixed
points of reduce, is itself a fixed point of reduce. -/
theorem default_fixed (k : NKind) (p : NPayload) (l : Nat)
    (cs : List (Option Node)) (hk : k ≠ .unaryExpr)
    (hd : postReduce k p l cs = some (.mk k p l cs))
    (hmem : ∀ c, some c ∈ cs → reduceOpt c = some c) :
    reduceOpt (.mk k p l cs) = some (.mk k p l cs) := by
  rw [reduceOpt_mk _ _ _ _ hk]
  rw [reduceChildren_self cs hmem]
  exact hd

theorem compareN_unary (pp : NPayload) (l : Nat) (cs : List (Option Node))
    (b : Bool) : compareN (.mk .unaryExpr pp l cs) b = false := by
  rw [compareN.eq_def]

/-- The else-slot trimming of NodeIf::reduce (drop an empty else block) is
idempotent. -/
theorem elseTrim_idem (s : Option Node) :
    (match (match s with
            | some e => if e.childrenOf.isEmpty then none else some e
            | none => none) with
     | some e => if e.childrenOf.isEmpty then none else some e
     | none => none)
    = (match s with
       | some e => if e.childrenOf.isEmpty then none else some e
       | none => none) := by
  match s with
  | none => rfl
  | some e =>
    by_cases hE : e.childrenOf.isEmpty
    · simp [hE]
    · simp [hE]

/-- Whatever NodeUnary::reduce returns is a fixed point of reduce: the
boolean literals it can emit are fixed, and when it returns the node
itself a second run takes the same branch. -/
theorem unaryStep_fixed (p : NPayload) (l : Nat) (cs : List (Option Node))
    (t : Node) (h : unaryStep p l cs = some t) : reduceOpt t = some t := by
  have h0 := h
  unfold unaryStep at h
  split at h
  · split at h
    · split at h
      · split at h
        · injection h with he
          rw [← he]
          exact boolLit_fixed _ _
        · split at h
          · injection h with he
            rw [← he]
            exact boolLit_fixed _ _
          · injection h with he
            rw [← he] at h0 ⊢
            rw [reduceOpt_unary]
            exact h0
      · injection h with he
        rw [← he] at h0 ⊢
        rw [reduceOpt_unary]
        exact h0
    · injection h with he
      rw [← he] at h0 ⊢
      rw [reduceOpt_unary]
      exact h0
  · injection h with he
    rw [← he] at h0 ⊢
    rw [reduceOpt_unary]
    exact h0

/-- The output of NodeOperator::reduce on reduce-fixed children is a fixed
point of reduce. -/
theorem opPost_fixed (p : NPayload) (l : Nat) (cs : List (Option Node))
    (hmem : ∀ c, some c ∈ cs → reduceOpt c = some c) (t : Node)
    (h : opPost p l cs = some t) : reduceOpt t = some t := by
  have h0 := h
  have hself : ∀ he : Node.mk .operatorExpr p l cs = t, reduceOpt t = some t := by
    intro he
    rw [← he] at h0 ⊢
    rw [reduceOpt_mk _ _ _ _ (by simp)]
    simp only [postReduce]
    rw [reduceChildren_self cs hmem]
    exact h0
  unfold opPost at h
  split at h
  · split at h
    · exact hmem t (slotMem_front h)
    · split at h
      · split at h
        · exact hmem t (slotMem_second h)
        · split at h
          · injection h with he
            rw [← he]
            exact boolLit_fixed _ _
          · exact hself (Option.some.inj h)
      · exact hself (Option.some.inj h)
  · split at h
    · injection h with he
      rw [← he]
      exact boolLit_fixed _ _
    · split at h
      · split at h
        · injection h with he
          rw [← he]
          exact boolLit_fixed _ _
        · exact hmem t (slotMem_second h)
      · exact hself (Option.some.inj h)
  · split at h
    · exact hmem t (slotMem_second h)
    · exact hself (Option.some.inj h)
  · exact hself (Option.some.inj h)

/-- The output of NodeConditionalExpression::reduce on reduce-fixed
children is a fixed point of reduce. -/
theorem condPost_fixed (p : NPayload) (l : Nat) (cs : List (Option Node))
    (hmem : ∀ c, some c ∈ cs → reduceOpt c = some c) (t : Node)
    (h : condPost p l cs = some t) : reduceOpt t = some t := by
  have h0 := h
  have hself : ∀ he : Node.mk .conditionalExpr p l cs = t, reduceOpt t = some t := by
    intro he
    rw [← he] at h0 ⊢
    rw [reduceOpt_mk _ _ _ _ (by simp)]
    simp only [postReduce]
    rw [reduceChildren_self cs hmem]
    exact h0
  unfold condPost at h
  split at h
  · exact hmem t (slotMem_second h)
  · split at h
    · exact hmem t (slotMem_third h)
    · exact hself (Option.some.inj h)

/-- The output of NodeFunctionCall::reduce on reduce-fixed children is a
fixed point of reduce. -/
theorem callPost_fixed (p : NPayload) (l : Nat) (cs : List (Option Node))
    (hmem : ∀ c, some c ∈ cs → reduceOpt c = some c) (t : Node)
    (h : callPost p l cs = some t) : reduceOpt t = some t := by
  have h0 := h
  have hself : ∀ he : Node.mk .functionCall p l cs = t, reduceOpt t = some t := by
    intro he
    rw [← he] at h0 ⊢
    rw [reduceOpt_mk _ _ _ _ (by simp)]
    simp only [postReduce]
    rw [reduceChildren_self cs hmem]
    exact h0
  unfold callPost at h
  split at h
  · split at h
    · injection h with he
      rw [← he]
      exact boolLit_fixed _ _
    · exact hself (Option.some.inj h)
  · exact hself (Option.some.inj h)

/-- The output of NodeStatementList::reduce on reduce-fixed children is a
fixed point of reduce. -/
theorem slPost_fixed (p : NPayload) (l : Nat) (cs : List (Option Node))
    (hmem : ∀ c, some c ∈ cs → reduceOpt c = some c) (t : Node)
    (h : slPost p l cs = some t) : reduceOpt t = some t := by
  unfold slPost at h
  injection h with he
  rw [← he]
  rw [reduceOpt_mk _ _ _ _ (by simp)]
  simp only [postReduce]
  have hm2 : ∀ c, some c ∈ cs.filterMap slKeep → reduceOpt c = some c :=
    fun c hc => hmem c (mem_filterMap_slKeep hc)
  rw [reduceChildren_self _ hm2]
  unfold slPost
  rw [filterMap_slKeep_idem]

/-- The output of NodeObjectLiteralProperty::reduce on reduce-fixed
children is a fixed point of reduce. -/
theorem propPost_fixed (p : NPayload) (l : Nat) (cs : List (Option Node))
    (hmem : ∀ c, some c ∈ cs → reduceOpt c = some c) (t : Node)
    (h : propPost p l cs = some t) : reduceOpt t = some t := by
  have h0 := h
  have hself : ∀ he : Node.mk .objectProp p l cs = t, reduceOpt t = some t := by
    intro he
    rw [← he] at h0 ⊢
    rw [reduceOpt_mk _ _ _ _ (by simp)]
    simp only [postReduce]
    rw [reduceChildren_self cs hmem]
    exact h0
  unfold propPost at h
  split at h
  · exact hself (Option.some.inj h)
  · split at h
    · rename_i v q litLn csk heq
      split at h
      · injection h with he
        rw [← he]
        rw [reduceOpt_mk _ _ _ _ (by simp)]
        simp only [postReduce]
        have hb : reduceChildren
            [some (.mk .identifier (.idP (unquoted_value v q)) litLn []),
             backSlot cs]
            = [some (.mk .identifier (.idP (unquoted_value v q)) litLn []),
               backSlot cs] := by
          refine reduceChildren_self _ ?_
          intro c hc
          simp at hc
          rcases hc with hc | hc
          · rw [hc]
            exact identifier_fixed _ _
          · exact hmem c (slotMem_back hc.symm)
        rw [hb]
        simp [propPost, frontSlot]
      · exact hself (Option.some.inj h)
    · exact hself (Option.some.inj h)

/-- The output of NodeDynamicMemberExpression::reduce on reduce-fixed
children is a fixed point of reduce. -/
theorem dynPost_fixed (p : NPayload) (l : Nat) (cs : List (Option Node))
    (hmem : ∀ c, some c ∈ cs → reduceOpt c = some c) (t : Node)
    (h : dynPost p l cs = some t) : reduceOpt t = some t := by
  have h0 := h
  have hself : ∀ he : Node.mk .dynamicMember p l cs = t, reduceOpt t = some t := by
    intro he
    rw [← he] at h0 ⊢
    rw [reduceOpt_mk _ _ _ _ (by simp)]
    simp only [postReduce]
    rw [reduceChildren_self cs hmem]
    exact h0
  unfold dynPost at h
  split at h
  · rename_i v q litLn csk heq
    split at h
    · injection h with he
      rw [← he]
      rw [reduceOpt_mk _ _ _ _ (by simp)]
      simp only [postReduce]
      have hb : reduceChildren
          [frontSlot cs,
           some (.mk .identifier (.idP (unquoted_value v q)) litLn [])]
          = [frontSlot cs,
             some (.mk .identifier (.idP (unquoted_value v q)) litLn [])] := by
        refine reduceChildren_self _ ?_
        intro c hc
        simp at hc
        rcases hc with hc | hc
        · exact hmem c (slotMem_front hc.symm)
        · rw [hc]
          exact identifier_fixed _ _
      rw [hb]
    · exact hself (Option.some.inj h)
  · exact hself (Option.some.inj h)

/-- The negation NodeIf::reduce wraps around a not-statically-decidable
condition does not itself fold: NodeUnary::reduce returns it unchanged. -/
theorem unaryStep_neg_paren (ln ln2 : Nat) (s : Option Node)
    (h1 : condCompareSlot s true = false)
    (h2 : condCompareSlot s false = false) :
    unaryStep (.unP .notUnary) ln [some (.mk .parenthetical .noPayload ln2 [s])]
      = some (.mk .unaryExpr (.unP .notUnary) ln
          [some (.mk .parenthetical .noPayload ln2 [s])]) := by
  have hc : ∀ b, compareN (.mk .parenthetical .noPayload ln2 [s]) b = false := by
    intro b
    match s with
    | none => rw [compareN.eq_def]
    | some c =>
      rw [compareN_paren_cons]
      cases b
      · simpa [condCompareSlot] using h2
      · simpa [condCompareSlot] using h1
  unfold unaryStep
  simp [frontSlot, isExpression, hc]

/-- NodeIf::reduce leaves a three-slot if-statement unchanged when the
test is not statically decidable, the if-branch is non-empty, and the else
slot is already trimmed. -/
theorem ifPost_keep (p : NPayload) (l : Nat) (f s3 es : Option Node)
    (h1 : condCompareSlot f true = false)
    (h2 : condCompareSlot f false = false)
    (hEmp : emptyChildrenUB s3 = false)
    (hes : (match es with
            | some e => if e.childrenOf.isEmpty then none else some e
            | none => none) = es) :
    ifPost p l [f, s3, es] = some (.mk .ifStmt p l [f, s3, es]) := by
  unfold ifPost
  simp [frontSlot, secondSlot, thirdSlot, h1, h2, hEmp, hes]

/-- The swapped if-statement built by the negate-and-swap rule of
NodeIf::reduce is a fixed point of reduce. -/
theorem ifSwap_fixed (p : NPayload) (l ln ln2 : Nat) (s : Option Node) (e : Node)
    (h1 : condCompareSlot s true = false)
    (h2 : condCompareSlot s false = false)
    (he : reduceOpt e = some e)
    (hne : e.childrenOf.isEmpty = false) :
    reduceOpt (.mk .ifStmt p l
      [some (.mk .unaryExpr (.unP .notUnary) ln
         [some (.mk .parenthetical .noPayload ln2 [s])]),
       some e, none])
    = some (.mk .ifStmt p l
      [some (.mk .unaryExpr (.unP .notUnary) ln
         [some (.mk .parenthetical .noPayload ln2 [s])]),
       some e, none]) := by
  have hU := unaryStep_neg_paren ln ln2 s h1 h2
  rw [reduceOpt_mk _ _ _ _ (by simp)]
  simp only [postReduce]
  have hb : reduceChildren
      [some (.mk .unaryExpr (.unP .notUnary) ln
         [some (.mk .parenthetical .noPayload ln2 [s])]),
       some e, none]
      = [some (.mk .unaryExpr (.unP .notUnary) ln
           [some (.mk .parenthetical .noPayload ln2 [s])]),
         some e, none] := by
    refine reduceChildren_self _ ?_
    intro c hc
    simp at hc
    rcases hc with hc | hc
    · rw [hc]
      rw [reduceOpt_unary]
      exact hU
    · rw [hc]
      exact he
  rw [hb]
  refine ifPost_keep p l _ _ _ ?_ ?_ ?_ rfl
  · simp [condCompareSlot, compareN_unary]
  · simp [condCompareSlot, compareN_unary]
  · simp [emptyChildrenUB, hne]

/-- The output of NodeIf::reduce on reduce-fixed children is a fixed point
of reduce. -/
theorem ifPost_fixed (p : NPayload) (l : Nat) (cs : List (Option Node))
    (hmem : ∀ c, some c ∈ cs → reduceOpt c = some c) (t : Node)
    (h : ifPost p l cs = some t) : reduceOpt t = some t := by
  unfold ifPost at h
  split at h
  · exact hmem t (slotMem_second h)
  · rename_i hC1
    split at h
    · exact hmem t (slotMem_third h)
    · rename_i hC2
      have hC1' : condCompareSlot (frontSlot cs) true = false := by
        simpa using hC1
      have hC2' : condCompareSlot (frontSlot cs) false = false := by
        simpa using hC2
      simp only [] at h
      split at h
      · rename_i hEmp
        split at h
        · exact hmem t (slotMem_front h)
        · rename_i e hElse
          have hThird : thirdSlot cs = some e ∧ e.childrenOf.isEmpty = false := by
            split at hElse
            · rename_i e0 hT0
              split at hElse
              · simp at hElse
              · rename_i hne
                have he0 : e0 = e := Option.some.inj hElse
                subst he0
                exact ⟨hT0, by simpa using hne⟩
            · simp at hElse
          rw [unaryStep_neg_paren _ _ _ hC1' hC2'] at h
          injection h with he2
          rw [← he2]
          exact ifSwap_fixed p l _ _ (frontSlot cs) e hC1' hC2'
            (hmem e (slotMem_third hThird.1)) hThird.2
      · rename_i hEmp
        have hEmp' : emptyChildrenUB (secondSlot cs) = false := by
          simpa using hEmp
        injection h with he2
        rw [← he2]
        rw [reduceOpt_mk _ _ _ _ (by simp)]
        simp only [postReduce]
        have hb : reduceChildren
            [frontSlot cs, secondSlot cs,
             (match thirdSlot cs with
              | some e0 => if e0.childrenOf.isEmpty then none else some e0
              | none => none)]
            = [frontSlot cs, secondSlot cs,
               (match thirdSlot cs with
                | some e0 => if e0.childrenOf.isEmpty then none else some e0
                | none => none)] := by
          refine reduceChildren_self _ ?_
          intro c hc
          simp at hc
          rcases hc with hc | hc | hc
          · exact hmem c (slotMem_front hc.symm)
          · exact hmem c (slotMem_second hc.symm)
          · split at hc
            · rename_i e0 hT0
              split at hc
              · simp at hc
              · have hce : c = e0 := by simpa using hc
                subst hce
                exact hmem c (slotMem_third hT0)
            · simp at hc
        rw [hb]
        exact ifPost_keep p l (frontSlot cs) (secondSlot cs) _ hC1' hC2' hEmp'
          (elseTrim_idem (thirdSlot cs))

/-- Every node reduce produces is a fixed point of reduce. -/
theorem reduce_fixed_aux : ∀ (N : Nat) (n : Node), sizeOf n ≤ N →
    ∀ t, reduceOpt n = some t → reduceOpt t = some t := by
  intro N
  induction N with
  | zero =>
    intro n hn
    exfalso
    obtain ⟨k, p, l, cs⟩ := n
    simp at hn
    try omega
  | succ N ih =>
    intro n hn t h
    obtain ⟨k, p, l, cs⟩ := n
    have hmem : ∀ c, some c ∈ reduceChildren cs → reduceOpt c = some c := by
      intro c hc
      rcases mem_reduceChildren hc with ⟨c₀, hc0, hred⟩
      have hlt := sizeOf_lt_of_memSlot hc0
      have hsz : sizeOf (Node.mk k p l cs) ≤ N + 1 := hn
      simp at hsz
      exact ih c₀ (by omega) c hred
    by_cases hk : k = NKind.unaryExpr
    · subst hk
      rw [reduceOpt_unary] at h
      exact unaryStep_fixed p l cs t h
    · rw [reduceOpt_mk _ _ _ _ hk] at h
      cases k
      all_goals first
        | exact absurd rfl hk
        | exact slPost_fixed p l (reduceChildren cs) hmem t
            (by simpa [postReduce] using h)
        | exact opPost_fixed p l (reduceChildren cs) hmem t
            (by simpa [postReduce] using h)
        | exact condPost_fixed p l (reduceChildren cs) hmem t
            (by simpa [postReduce] using h)
        | exact ifPost_fixed p l (reduceChildren cs) hmem t
            (by simpa [postReduce] using h)
        | exact callPost_fixed p l (reduceChildren cs) hmem t
            (by simpa [postReduce] using h)
        | exact propPost_fixed p l (reduceChildren cs) hmem t
            (by simpa [postReduce] using h)
        | exact dynPost_fixed p l (reduceChildren cs) hmem t
            (by simpa [postReduce] using h)
        | (simp only [postReduce] at h
           injection h with he
           rw [← he]
           exact default_fixed _ p l (reduceChildren cs) (by simp)
             (by simp [postReduce]) hmem)

theorem reduce_fixed {n t : Node} (h : reduceOpt n = some t) :
    reduceOpt t = some t :=
  reduce_fixed_aux (sizeOf n) n le_rfl t h

/-- C6: reduce is idempotent: for every tree T, reducing the result of
reduce again yields a result structurally equal (operator==) to the first
result; a tree whose reduce removes it stays removed. -/
theorem c6_reduce_idempotent (T : Node) :
    optNodeEq ((reduceOpt T).bind reduceOpt) (reduceOpt T) = true := by
  cases h : reduceOpt T with
  | none => rfl
  | some t =>
    have h2 := reduce_fixed h
    simp [h2, optNodeEq, nodeEq_refl]

end Fbjs
